import Mathlib

/-!
# Verification of the qubes-shared-folders decision core

Shallow embedding of `src/py/sharedfolders/__init__.py`: the `Response`
enumeration, `Decision` records, the `DecisionMatrix` (a Python `dict`
from fingerprint strings to decisions, modelled as an insertion-ordered
association list), the path-containment predicate `contains`, the
SHA-256 based `fingerprint_decision`, the JSON persistence layer
(`save`/`load`) and the policy-file synchronizer
(`apply_policy_changes_from`).

Filesystem-facing state (the policy-file directory and the persisted
`policy.db` document) is modelled explicitly in `SysState`; every
matrix method that mutates state in Python is a function
`SysState → args → result × SysState` here.
-/

/-! ## Association lists with Python-dict semantics

A Python `dict` preserves insertion order; assigning to an existing key
updates the value in place, assigning a fresh key appends.  We model a
dict as a `List (key × value)` with the operations below. -/

/-- `d[k]` / `d.get(k)`: value stored under the first occurrence of `k`. -/
def lookupKey {α : Type} : List (String × α) → String → Option α
  | [], _ => none
  | (k', v) :: rest, k => if k' = k then some v else lookupKey rest k

/-- `d[k] = v`: update in place if `k` is present, else append. -/
def setKey {α : Type} : List (String × α) → String → α → List (String × α)
  | [], k, v => [(k, v)]
  | (k', v') :: rest, k, v =>
      if k' = k then (k, v) :: rest else (k', v') :: setKey rest k v

/-- `del d[k]`: remove the (first) binding of `k`. -/
def eraseKey {α : Type} : List (String × α) → String → List (String × α)
  | [], _ => []
  | (k', v') :: rest, k => if k' = k then rest else (k', v') :: eraseKey rest k

/-! ## Character-level string primitives

Python's `str.startswith` / `str.endswith` / `len` / `str.split("/")`
operate on sequences of code points; `String.toList` gives exactly that
sequence, so these wrappers are literal models of the Python operations. -/

/-- `s.startswith(pre)`. -/
def strStartsWith (s pre : String) : Bool := pre.toList.isPrefixOf s.toList

/-- `s.endswith(suf)`. -/
def strEndsWith (s suf : String) : Bool := suf.toList.isSuffixOf s.toList

/-! ## The `Response` enumeration (`class Response`, `class RESPONSES`) -/

/-- `class Response`: a named response value.  The source keeps the name
as a plain string and derives all predicates from it. -/
structure Response where
  name : String
  deriving DecidableEq, Repr

/-- `Response.is_allow`: name starts with `"ALLOW"`. -/
def Response.is_allow (r : Response) : Bool := strStartsWith r.name "ALLOW"

/-- `Response.is_onetime`: name ends with `"ONETIME"`. -/
def Response.is_onetime (r : Response) : Bool := strEndsWith r.name "ONETIME"

/-- `Response.is_block`: name is exactly `"BLOCK"`. -/
def Response.is_block (r : Response) : Bool := r.name = "BLOCK"

/-- `RESPONSES.ALLOW_ONETIME`. -/
def RESPONSES.ALLOW_ONETIME : Response := ⟨"ALLOW_ONETIME"⟩
/-- `RESPONSES.DENY_ONETIME`. -/
def RESPONSES.DENY_ONETIME : Response := ⟨"DENY_ONETIME"⟩
/-- `RESPONSES.ALLOW_ALWAYS`. -/
def RESPONSES.ALLOW_ALWAYS : Response := ⟨"ALLOW_ALWAYS"⟩
/-- `RESPONSES.DENY_ALWAYS`. -/
def RESPONSES.DENY_ALWAYS : Response := ⟨"DENY_ALWAYS"⟩
/-- `RESPONSES.BLOCK`. -/
def RESPONSES.BLOCK : Response := ⟨"BLOCK"⟩

/-- The five class attributes of `class RESPONSES`. -/
def fiveResponses : List Response :=
  [RESPONSES.ALLOW_ONETIME, RESPONSES.DENY_ONETIME, RESPONSES.ALLOW_ALWAYS,
   RESPONSES.DENY_ALWAYS, RESPONSES.BLOCK]

/-- The two failure shapes of `Response.from_string`: `ValueError(string)`
raised for a name absent from `RESPONSES.__dict__`, and the argument-less
`AssertionError` of `assert isinstance(r, Response)` when the dictionary
lookup finds a class-namespace attribute that is not a `Response`. -/
inductive PyErr : Type where
  | valueError (s : String)
  | assertionError
  deriving DecidableEq, Repr

/-- The keys CPython keeps in the namespace dictionary of
`class RESPONSES` besides the five response attributes (checked against
the reference interpreter): the module name, the docstring and the two
`__dict__`/`__weakref__` descriptors — none of them a `Response`. -/
def classDictExtraKeys : List String :=
  ["__module__", "__doc__", "__dict__", "__weakref__"]

/-- `Response.from_string`: look the name up in `RESPONSES.__dict__`.
A hit on one of the five response attributes passes the `isinstance`
assertion and returns the interned value; a hit on one of the other
class-namespace keys finds a non-`Response` value, so the assertion
fails with an `AssertionError` carrying no string; a missing key raises
`ValueError(string)`. -/
def Response.from_string (string : String) : Except PyErr Response :=
  if string = "ALLOW_ONETIME" then .ok RESPONSES.ALLOW_ONETIME
  else if string = "DENY_ONETIME" then .ok RESPONSES.DENY_ONETIME
  else if string = "ALLOW_ALWAYS" then .ok RESPONSES.ALLOW_ALWAYS
  else if string = "DENY_ALWAYS" then .ok RESPONSES.DENY_ALWAYS
  else if string = "BLOCK" then .ok RESPONSES.BLOCK
  else if string ∈ classDictExtraKeys then .error .assertionError
  else .error (.valueError string)

/-! ## Path containment (`contains`)

`contains` normalizes both paths with `os.path.abspath` and then does a
textual trailing-slash prefix check.  `os.path.abspath` is
`posixpath.normpath(join(os.getcwd(), path))`; the working directory of
the daemon is modelled as the root `"/"`, so `join` reduces to
prefixing a `"/"` to relative paths. -/

/-- `path.split("/")` at the code-point level (the separator is the
single character `/`, so character-level splitting coincides with
Python's substring split). -/
def splitSlash : List Char → List Char → List (List Char)
  | [], acc => [acc.reverse]
  | c :: cs, acc =>
      if c = '/' then acc.reverse :: splitSlash cs [] else splitSlash cs (c :: acc)

/-- The component list of a path, as `path.split("/")`. -/
def pathComps (p : String) : List String := (splitSlash p.toList []).map String.mk

/-- The component loop of `posixpath.normpath`: drop `""` and `"."`,
resolve `".."` against the accumulated components. -/
def normComps (initialSlashes : Nat) (comps : List String) : List String :=
  comps.foldl
    (fun acc comp =>
      if comp = "" ∨ comp = "." then acc
      else if comp ≠ ".." ∨ (initialSlashes = 0 ∧ acc = []) ∨
              (acc ≠ [] ∧ acc.getLast? = some "..") then acc ++ [comp]
      else acc.dropLast)
    []

/-- `posixpath.normpath`. -/
def normpath (path : String) : String :=
  if path = "" then "."
  else
    let initialSlashes : Nat :=
      if strStartsWith path "/" then
        if strStartsWith path "//" ∧ ¬ strStartsWith path "///" then 2 else 1
      else 0
    let joined := String.intercalate "/" (normComps initialSlashes (pathComps path))
    let out :=
      (if initialSlashes = 2 then "//" else if initialSlashes = 1 then "/" else "") ++ joined
    if out = "" then "." else out

/-- `os.path.abspath` with the process working directory modelled as `"/"`. -/
def abspath (path : String) : String :=
  normpath (if strStartsWith path "/" then path else "/" ++ path)

/-- `contains(needle, haystack)`: is the needle path the same as, or
nested under, the haystack path (textual check on normalized paths). -/
def contains (needle haystack : String) : Bool :=
  let n := abspath needle
  let h := abspath haystack
  let n := if strEndsWith n "/" then n else n ++ "/"
  let h := if strEndsWith h "/" then h else h ++ "/"
  if n = h then true
  else if strStartsWith n h then true
  else false

example : contains "/a/b" "/a" = true := by decide
example : contains "/ab" "/a" = false := by decide
example : contains "/a" "/a/b" = false := by decide
example : contains "/x/y/../z" "/x" = true := by decide

/-! ## Fingerprints (`fingerprint_decision`)

`hashlib.sha256` over `source + "\0" + target + "\0" + folder + "\0"`
(UTF-8 bytes), hex digest truncated to 32 characters.  SHA-256 is
implemented below over `Nat` with explicit reduction modulo `2 ^ 32`. -/

/-- `2 ^ 32`. -/
def M32 : Nat := 4294967296

/-- Right rotation of a 32-bit word. -/
def rotr32 (n x : Nat) : Nat := ((x >>> n) ||| (x <<< (32 - n))) % M32

/-- The 64 SHA-256 round constants (decimal spellings of the standard
words `0x428a2f98`, `0x71374491`, …). -/
def shaK : List Nat :=
  [1116352408, 1899447441, 3049323471, 3921009573, 961987163,
   1508970993, 2453635748, 2870763221, 3624381080, 310598401,
   607225278, 1426881987, 1925078388, 2162078206, 2614888103,
   3248222580, 3835390401, 4022224774, 264347078, 604807628,
   770255983, 1249150122, 1555081692, 1996064986, 2554220882,
   2821834349, 2952996808, 3210313671, 3336571891, 3584528711,
   113926993, 338241895, 666307205, 773529912, 1294757372,
   1396182291, 1695183700, 1986661051, 2177026350, 2456956037,
   2730485921, 2820302411, 3259730800, 3345764771, 3516065817,
   3600352804, 4094571909, 275423344, 430227734, 506948616,
   659060556, 883997877, 958139571, 1322822218, 1537002063,
   1747873779, 1955562222, 2024104815, 2227730452, 2361852424,
   2428436474, 2756734187, 3204031479, 3329325298]

/-- The SHA-256 initial hash state (decimal spellings of `0x6a09e667`,
`0xbb67ae85`, …). -/
def shaInit : List Nat :=
  [1779033703, 3144134277, 1013904242, 2773480762,
   1359893119, 2600822924, 528734635, 1541459225]

/-- UTF-8 encoding of a single code point. -/
def encodeUtf8Char (n : Nat) : List Nat :=
  if n < 0x80 then [n]
  else if n < 0x800 then
    [0xC0 ||| (n >>> 6), 0x80 ||| (n &&& 0x3F)]
  else if n < 0x10000 then
    [0xE0 ||| (n >>> 12), 0x80 ||| ((n >>> 6) &&& 0x3F), 0x80 ||| (n &&& 0x3F)]
  else
    [0xF0 ||| (n >>> 18), 0x80 ||| ((n >>> 12) &&& 0x3F),
     0x80 ||| ((n >>> 6) &&& 0x3F), 0x80 ||| (n &&& 0x3F)]

/-- `s.encode("utf-8")` as a byte list. -/
def utf8Bytes (s : String) : List Nat :=
  s.toList.foldr (fun c acc => encodeUtf8Char c.toNat ++ acc) []

/-- `k`-byte big-endian representation of `n`. -/
def natToBE : Nat → Nat → List Nat
  | 0, _ => []
  | k + 1, n => natToBE k (n >>> 8) ++ [n &&& 255]

/-- SHA-256 message padding: `0x80`, zeros to 56 mod 64, 8-byte bit length. -/
def shaPad (msg : List Nat) : List Nat :=
  let L := msg.length
  msg ++ [0x80] ++ List.replicate ((119 - L % 64) % 64) 0 ++
    natToBE 8 ((8 * L) % (2 ^ 64))

/-- Group bytes into big-endian 32-bit words. -/
def wordsOfBytes : List Nat → List Nat
  | b0 :: b1 :: b2 :: b3 :: rest =>
      ((((b0 <<< 8) ||| b1) <<< 8 ||| b2) <<< 8 ||| b3) :: wordsOfBytes rest
  | _ => []

/-- Split a byte list into 64-byte blocks (`fuel`-driven recursion). -/
def chunks64Go : Nat → List Nat → List (List Nat)
  | 0, _ => []
  | _, [] => []
  | fuel + 1, l => l.take 64 :: chunks64Go fuel (l.drop 64)

/-- Split a byte list into 64-byte blocks. -/
def chunks64 (l : List Nat) : List (List Nat) := chunks64Go l.length l

/-- One step of the SHA-256 message-schedule extension. -/
def scheduleStep (ws : List Nat) : List Nat :=
  let i := ws.length
  let w15 := ws.getD (i - 15) 0
  let w2 := ws.getD (i - 2) 0
  let s0 := (rotr32 7 w15) ^^^ (rotr32 18 w15) ^^^ (w15 >>> 3)
  let s1 := (rotr32 17 w2) ^^^ (rotr32 19 w2) ^^^ (w2 >>> 10)
  ws ++ [(ws.getD (i - 16) 0 + s0 + ws.getD (i - 7) 0 + s1) % M32]

/-- Extend the 16 message words to the full 64-word schedule. -/
def fullSchedule (ws : List Nat) : List Nat :=
  (List.range 48).foldl (fun acc _ => scheduleStep acc) ws

/-- One SHA-256 compression round on the 8-word working state. -/
def compressStep : List Nat → Nat × Nat → List Nat
  | [a, b, c, d, e, f, g, h], (w, k) =>
      let S1 := rotr32 6 e ^^^ rotr32 11 e ^^^ rotr32 25 e
      let ch := (e &&& f) ^^^ ((e ^^^ (M32 - 1)) &&& g)
      let t1 := (h + S1 + ch + k + w) % M32
      let S0 := rotr32 2 a ^^^ rotr32 13 a ^^^ rotr32 22 a
      let mj := (a &&& b) ^^^ (a &&& c) ^^^ (b &&& c)
      let t2 := (S0 + mj) % M32
      [(t1 + t2) % M32, a, b, c, (d + t1) % M32, e, f, g]
  | s, _ => s

/-- Process one 64-byte block into the hash state. -/
def processBlock (h : List Nat) (block : List Nat) : List Nat :=
  let ws := fullSchedule (wordsOfBytes block)
  let out := (ws.zip shaK).foldl compressStep h
  (h.zip out).map (fun p => (p.1 + p.2) % M32)

/-- Hexadecimal digit characters. -/
def hexDigit (n : Nat) : Char := "0123456789abcdef".toList.getD n '0'

/-- Lowercase hex spelling of one 32-bit word. -/
def wordHex (w : Nat) : String :=
  String.mk ((List.range 8).map (fun i => hexDigit ((w >>> (28 - 4 * i)) &&& 15)))

/-- `hashlib.sha256(bytes).hexdigest()`. -/
def sha256hex (msg : List Nat) : String :=
  String.join (((shaPad msg |> chunks64).foldl processBlock shaInit).map wordHex)

/-- `fingerprint_decision(source, target, folder)`. -/
def fingerprint_decision (source target folder : String) : String :=
  (sha256hex (utf8Bytes source ++ [0] ++ utf8Bytes target ++ [0] ++
    utf8Bytes folder ++ [0])).take 32

example : sha256hex [] =
    "e3b0c44298fc1c149afbf4c8996fb92427ae41e4649b934ca495991b7852b855" := by decide
example : sha256hex (utf8Bytes "abc") =
    "ba7816bf8f01cfea414140de5dae2223b00361a396177a9cb410ff61f20015ad" := by decide

/- Fingerprints are opaque identifiers to every algorithm in this file;
nothing below depends on the digest computation, so keep the
elaborator from ever unfolding it. -/
attribute [irreducible] fingerprint_decision

/-! ## Decisions and the decision matrix -/

/-- `class Decision`: immutable record of one authorization outcome. -/
structure Decision where
  source : String
  target : String
  folder : String
  response : Response
  deriving DecidableEq, Repr

/-- `class DecisionMatrix(Dict[str, Decision])`, as an insertion-ordered
association list from fingerprint to decision. -/
abbrev DecisionMatrix := List (String × Decision)

/-- The policy-file directory: path → content for each existing file. -/
abbrev Files := List (String × String)

/-! ## JSON documents (`policy.db`)

`save` serializes via `json.dump` and `load` parses via `json.load`
with an `object_hook`.  We model the document at the JSON-AST level
(strings and objects, the only shapes the code produces); `JFields` is
a bespoke list of fields so that the hook interpreter below is
structurally recursive (and hence kernel-reducible). -/

mutual
/-- A JSON value: a string or an object. -/
inductive JsonVal : Type where
  | str (s : String)
  | obj (fields : JFields)

/-- The ordered field list of a JSON object. -/
inductive JFields : Type where
  | nil
  | cons (k : String) (v : JsonVal) (rest : JFields)
end

/-- Build a `JFields` from a list of named values. -/
def jfieldsOfList : List (String × JsonVal) → JFields
  | [] => .nil
  | (k, v) :: rest => .cons k v (jfieldsOfList rest)

/-- What `json.load(..., object_hook=hook)` produces for each value:
a plain string, a `Decision` (object with a `"folder"` key), or a
`DecisionMatrix`-wrapped object (any other object). -/
inductive HVal : Type where
  | js (s : String)
  | dec (d : Decision)
  | dm (entries : List (String × HVal))

/-- The on-disk state of `POLICY_DB`: absent, unparseable, or a
parsed JSON document. -/
inductive DiskState : Type where
  | missing
  | malformed
  | doc (j : JsonVal)

/-- The state every matrix method acts on: the in-memory matrix, the
policy-file directory, and the persisted `policy.db`. -/
structure SysState where
  matrix : DecisionMatrix
  files : Files
  db : DiskState

/-- `json.load` collapses duplicate keys of one object into a dict
(first occurrence's position, last occurrence's value); `setKey` has
exactly that behavior, so a fold over `setKey` is the dict built from
the parsed field sequence. -/
def dictOf {α : Type} (fields : List (String × α)) : List (String × α) :=
  fields.foldl (fun acc p => setKey acc p.1 p.2) []

/-- `obj["k"]` on the dict built from parsed fields. -/
def objGet (fields : List (String × HVal)) (k : String) : Option HVal :=
  lookupKey fields k

/-- `"k" in obj`. -/
def objHasKey (fields : List (String × HVal)) (k : String) : Bool :=
  (lookupKey fields k).isSome

/-- A decision field must be a plain JSON string.  (The Python code
performs no type check here; a non-string value would be stored as-is
inside a `Decision` and is outside this typed model, so it is treated
as a load failure — like any other load failure it yields the empty
matrix, which is also what every such document produces in practice
through the subsequent type errors.) -/
def getStrField (fields : List (String × HVal)) (k : String) : Except String String :=
  match objGet fields k with
  | some (.js s) => .ok s
  | some _ => .error ("non-string field " ++ k)
  | none => .error ("KeyError: " ++ k)

/-- `Response.from_string` as seen on the load path: whichever of the
two exceptions it raises (`ValueError` for an unknown name,
`AssertionError` for a class-namespace key) is caught alike by `load`'s
blanket handler, so only the failure itself matters downstream. -/
def resolveResponse (string : String) : Except String Response :=
  match Response.from_string string with
  | .ok r => .ok r
  | .error (.valueError s) => .error ("ValueError: " ++ s)
  | .error .assertionError => .error "AssertionError"

/-- The `hook` of `DecisionMatrix.load`: an object with a `"folder"`
key becomes a `Decision` (fields read in keyword order `source`,
`target`, `folder`, `response`, the response resolved by
`Response.from_string`); any other object is wrapped as a matrix. -/
def loadHook (fields : List (String × HVal)) : Except String HVal :=
  if objHasKey fields "folder" then do
    let source ← getStrField fields "source"
    let target ← getStrField fields "target"
    let folder ← getStrField fields "folder"
    let rname ← getStrField fields "response"
    let response ← resolveResponse rname
    .ok (.dec ⟨source, target, folder, response⟩)
  else
    .ok (.dm fields)

mutual
/-- Parse a JSON value the way `json.load(db, object_hook=hook)` does:
objects are interpreted depth-first in document order, each object's
fields are collapsed into a dict, and the hook is applied. -/
def interp : JsonVal → Except String HVal
  | .str s => .ok (.js s)
  | .obj fields => do
      let fs ← interpFields fields
      loadHook (dictOf fs)

/-- Interpret the fields of an object in order. -/
def interpFields : JFields → Except String (List (String × HVal))
  | .nil => .ok []
  | .cons k v rest => do
      let h ← interp v
      let hs ← interpFields rest
      .ok ((k, h) :: hs)
end

/-- `DecisionMatrix.load`: read and parse `POLICY_DB`; any failure —
missing file, parse failure, hook failure (unknown response name,
missing field), or a top-level value that is not a dict (so that
`data.items()` raises) — is absorbed and yields the empty matrix. -/
def DecisionMatrix.load (d : DiskState) : List (String × HVal) :=
  match d with
  | .missing => []
  | .malformed => []
  | .doc j =>
      match interp j with
      | .ok (.dm entries) => entries
      | _ => []

/-- One decision serialized by `DecisionMatrixEncoder`: its `__dict__`
with the `Response` replaced by its name, keys emitted in sorted order
(`json.dump(..., sort_keys=True)`). -/
def decisionDoc (d : Decision) : JsonVal :=
  .obj (jfieldsOfList
    [("folder", .str d.folder), ("response", .str d.response.name),
     ("source", .str d.source), ("target", .str d.target)])

/-- Sort matrix entries by fingerprint key (`sort_keys=True`; only the
resulting permutation matters to any property proved here). -/
def sortByKey (m : DecisionMatrix) : DecisionMatrix :=
  List.insertionSort (fun a b => a.1 ≤ b.1) m

/-- The JSON document `DecisionMatrix.save` writes. -/
def saveJson (m : DecisionMatrix) : JsonVal :=
  .obj (jfieldsOfList ((sortByKey m).map (fun e => (e.1, decisionDoc e.2))))

/-- `DecisionMatrix.save`: serialize the matrix and atomically replace
`POLICY_DB` with the new document. -/
def DecisionMatrix.save (st : SysState) : SysState :=
  { st with db := .doc (saveJson st.matrix) }

/-! ## The policy-file synchronizer (`_ConnectToFolderPolicy`) -/

/-- `FNTPL` without the `%s` hole. -/
def FNTPL : String := "/etc/qubes-rpc/policy/ruddo.ConnectToFolder+"

/-- `ctf_policy(fingerprint)`: the policy file path for a fingerprint. -/
def ctf_policy (fingerprint : String) : String := FNTPL ++ fingerprint

/-- Does a path match `glob.glob(FNTPL % "*")`: it extends the fixed
prefix and the remainder stays within the directory (no `/`). -/
def globMatch (p : String) : Bool :=
  strStartsWith p FNTPL && !((p.toList.drop FNTPL.length).contains '/')

/-- `os.path.isfile(fn)` in the modelled directory. -/
def hasFile (fs : Files) (p : String) : Bool := fs.any (fun f => f.1 == p)

/-- `grant_for`: create the policy file with content
`"<source> <target> allow"` unless it already exists (an existing file
is left untouched, content included). -/
def grant_for (fs : Files) (source target fingerprint : String) : Files :=
  let fn := ctf_policy fingerprint
  if hasFile fs fn then fs
  else fs ++ [(fn, source ++ " " ++ target ++ " allow")]

/-- `revoke_for`: delete the policy file, tolerating absence. -/
def revoke_for (fs : Files) (fingerprint : String) : Files :=
  fs.filter (fun f => !(f.1 == ctf_policy fingerprint))

/-- The glob-listing update of one `apply_policy_changes_from` loop
iteration: `existing_policy_files.remove(...)` guarded by `in`. -/
def exStep (ex : List String) (e : String × Decision) : List String :=
  if ex.contains (ctf_policy e.1) then ex.erase (ctf_policy e.1) else ex

/-- The directory update of one `apply_policy_changes_from` loop
iteration: grant or revoke the entry's policy file. -/
def fsStep (fs : Files) (e : String × Decision) : Files :=
  if e.2.response.is_allow then grant_for fs e.2.source e.2.target e.1
  else revoke_for fs e.1

/-- The per-entry step of `apply_policy_changes_from`: drop the entry's
path from the remaining glob listing, then grant or revoke its file. -/
def applyStep (st : List String × Files) (e : String × Decision) : List String × Files :=
  (exStep st.1 e, fsStep st.2 e)

/-- Delete every path in `ps` from the directory. -/
def deleteAll (fs : Files) (ps : List String) : Files :=
  ps.foldl (fun fs p => fs.filter (fun f => !(f.1 == p))) fs

/-- `apply_policy_changes_from(matrix)`: reconcile the policy-file
directory against the matrix, then delete every leftover file that
matched the naming template. -/
def apply_policy_changes_from (matrix : DecisionMatrix) (fs : Files) : Files :=
  let existing := (fs.map Prod.fst).filter globMatch
  let res := matrix.foldl applyStep (existing, fs)
  deleteAll res.2 res.1

/-! ## DecisionMatrix operations -/

/-- `revoke_onetime_accesses_for_fingerprint`: if the fingerprint maps
to a one-time decision, delete it, re-synchronize the policy files and
persist. -/
def revoke_onetime_accesses_for_fingerprint (st : SysState) (fingerprint : String) :
    SysState :=
  match lookupKey st.matrix fingerprint with
  | some d =>
      if d.response.is_onetime then
        let m := eraseKey st.matrix fingerprint
        DecisionMatrix.save ⟨m, apply_policy_changes_from m st.files, st.db⟩
      else st
  | none => st

/-- The match set of `lookup_decision`: entries whose source and target
equal the request's and whose folder contains the requested folder. -/
def matchesOf (m : DecisionMatrix) (source target folder : String) :
    List (String × Decision) :=
  m.filter (fun e =>
    decide (source = e.2.source) && decide (target = e.2.target) &&
      contains folder e.2.folder)

/-- Python's `sorted(matches, key=lambda m: len(m[1].folder))`: a stable
ascending sort by folder length. -/
def sortByFolderLen (l : List (String × Decision)) : List (String × Decision) :=
  List.insertionSort (fun a b => a.2.folder.length ≤ b.2.folder.length) l

/-- The `for … in reversed(sorted(…))` loop of `lookup_decision`: walk
the candidates, stop at the first allow-type one; if none is allow-type
the loop runs out and the loop variable holds the last candidate. -/
def pickFirstAllowOrLast : (String × Decision) → List (String × Decision) →
    String × Decision
  | p, [] => p
  | p, q :: rest => if p.2.response.is_allow then p else pickFirstAllowOrLast q rest

/-- `lookup_decision(source, target, folder)`: scan all entries for
matches; if any, select along the longest-to-shortest candidate order;
otherwise return no decision plus a freshly computed fingerprint.
(The Python code guards the loop with `if matches:`; here the same case
split appears as a `match` on the reversed sorted candidate list, which
is empty exactly when `matches` is.) -/
def lookup_decision (st : SysState) (source target folder : String) :
    (Option Decision × String) × SysState :=
  match (sortByFolderLen (matchesOf st.matrix source target folder)).reverse with
  | [] => ((none, fingerprint_decision source target folder), st)
  | p :: rest =>
      let sel := pickFirstAllowOrLast p rest
      ((some sel.2, sel.1), st)

/-- `lookup_prior_authorization(source, target, folder)`: look up, then
revoke a one-time decision stored under the returned fingerprint, and
report the matched response unless it was one-time. -/
def lookup_prior_authorization (st : SysState) (source target folder : String) :
    (Option Response × String) × SysState :=
  let r := lookup_decision st source target folder
  let st' := revoke_onetime_accesses_for_fingerprint r.2 r.1.2
  (match r.1.1 with
   | some d => if d.response.is_onetime then (none, r.1.2) else (some d.response, r.1.2)
   | none => (none, r.1.2), st')

/-- `process_authorization_request(source, target, folder, response)`:
a BLOCK response is stored as `DENY_ALWAYS` for the root folder `"/"`;
the decision is recorded under the fingerprint of the (possibly
widened) triple, policy files are re-synchronized and the matrix is
persisted. -/
def process_authorization_request (st : SysState)
    (source target folder : String) (response : Response) : String × SysState :=
  let rf := if response.is_block then (RESPONSES.DENY_ALWAYS, "/") else (response, folder)
  let fingerprint := fingerprint_decision source target rf.2
  let m := setKey st.matrix fingerprint ⟨source, target, rf.2, rf.1⟩
  (fingerprint, DecisionMatrix.save ⟨m, apply_policy_changes_from m st.files, st.db⟩)

/-- `lookup_decision_folder(fingerprint, requested_folder)`: direct
lookup by fingerprint key, consume a one-time entry, and return the
authorized folder when the request is contained in it. -/
def lookup_decision_folder (st : SysState) (fingerprint requested_folder : String) :
    Option String × SysState :=
  let m := lookupKey st.matrix fingerprint
  let st' := revoke_onetime_accesses_for_fingerprint st fingerprint
  (match m with
   | some d => if contains requested_folder d.folder then some d.folder else none
   | none => none, st')

/-! ## Basic lemmas about the primitives -/

theorem contains_self (f : String) : contains f f = true := by
  unfold contains
  simp

theorem strStartsWith_of_head (s : String) (r : List Char)
    (h : s.toList = '/' :: r) : strStartsWith s "/" = true := by
  unfold strStartsWith
  rw [show ("/" : String).toList = ['/'] from rfl, h]
  simp [List.isPrefixOf]

theorem toList_append (a b : String) : (a ++ b).toList = a.toList ++ b.toList :=
  String.data_append a b

theorem ne_empty_of_toList_cons {s : String} {c : Char} {r : List Char}
    (h : s.toList = c :: r) : s ≠ "" := by
  intro he
  rw [he] at h
  exact List.noConfusion h

theorem head?_cons {l : List Char} {c : Char} (h : l.head? = some c) :
    ∃ r, l = c :: r := by
  cases l with
  | nil => exact Option.noConfusion h
  | cons a as => exact ⟨as, by rw [Option.some.inj h]⟩

/-- The final `path or "."` step of `normpath` keeps a leading slash
coming from the `initial_slashes` prefix. -/
theorem normpath_out_head (pre j : String) (hp : pre.toList.head? = some '/') :
    ((if pre ++ j = "" then "." else pre ++ j) : String).toList.head? = some '/' := by
  obtain ⟨r, hr⟩ := head?_cons hp
  have ht : (pre ++ j).toList = '/' :: (r ++ j.toList) := by
    rw [toList_append, hr]; rfl
  rw [if_neg (ne_empty_of_toList_cons ht), ht]
  rfl

/-- Any path that textually starts with `/` normalizes to a path that
still starts with `/`. -/
theorem normpath_abs_head (p : String) (r : List Char) (h : p.toList = '/' :: r) :
    (normpath p).toList.head? = some '/' := by
  unfold normpath
  rw [if_neg (ne_empty_of_toList_cons h), strStartsWith_of_head p r h]
  by_cases h2 : strStartsWith p "//" = true ∧ ¬ strStartsWith p "///" = true
  · simp only [h2, if_true, and_self, reduceIte]
    exact normpath_out_head _ _ rfl
  · simp only [h2, if_false, reduceIte]
    split
    · exact normpath_out_head _ _ rfl
    · exact normpath_out_head _ _ rfl

/-- `abspath` always yields a path starting with `/`. -/
theorem abspath_head (p : String) : (abspath p).toList.head? = some '/' := by
  unfold abspath
  by_cases h : strStartsWith p "/" = true
  · rw [if_pos h]
    unfold strStartsWith at h
    cases hl : p.toList with
    | nil =>
        rw [hl] at h
        exact absurd h (by decide)
    | cons c cs =>
        rw [hl] at h
        have hc : c = '/' := by
          rw [show ("/" : String).toList = ['/'] from rfl] at h
          have : ('/' == c) = true := by
            simpa [List.isPrefixOf] using h
          exact (beq_iff_eq.mp this).symm
        exact normpath_abs_head p cs (by rw [hl, hc])
  · rw [if_neg h]
    exact normpath_abs_head ("/" ++ p) p.toList (by rw [toList_append]; rfl)

/-- Every folder is contained in the root folder `"/"`. -/
theorem contains_root (f : String) : contains f "/" = true := by
  have hr := abspath_head f
  show (if (if strEndsWith (abspath f) "/" then abspath f else abspath f ++ "/") =
        (if strEndsWith (abspath "/") "/" then abspath "/" else abspath "/" ++ "/")
      then true
      else if strStartsWith
          (if strEndsWith (abspath f) "/" then abspath f else abspath f ++ "/")
          (if strEndsWith (abspath "/") "/" then abspath "/" else abspath "/" ++ "/")
        then true else false) = true
  rw [show abspath "/" = "/" from rfl, show strEndsWith "/" "/" = true from rfl]
  simp only [if_true]
  have hhead : (if strEndsWith (abspath f) "/" then abspath f
      else abspath f ++ "/").toList.head? = some '/' := by
    split
    · exact hr
    · obtain ⟨r', hr'⟩ := head?_cons hr
      rw [toList_append, hr']
      rfl
  obtain ⟨r', hr'⟩ := head?_cons hhead
  by_cases hq : (if strEndsWith (abspath f) "/" then abspath f
      else abspath f ++ "/") = "/"
  · rw [if_pos hq]
  · rw [if_neg hq, strStartsWith_of_head _ r' hr']
    rfl

/-! ## C8: `Response.from_string` -/

/-- C8 counterexample to the claim as stated: `"__module__"` is not one
of the five response names, yet `Response.from_string` does not raise a
`ValueError` carrying it — the name hits the module-name entry of
`RESPONSES.__dict__`, the `isinstance` assertion fails, and an
`AssertionError` with no string is raised instead. -/
theorem c8_counterexample :
    Response.from_string "__module__" = .error .assertionError ∧
    Response.from_string "__module__" ≠ .error (.valueError "__module__") :=
  ⟨rfl, fun h => by
    rw [show Response.from_string "__module__" =
      Except.error PyErr.assertionError from rfl] at h
    exact PyErr.noConfusion (Except.error.inj h)⟩

/-- C8 (amended): for every string that is neither one of the five
response names nor one of the class-namespace keys of
`RESPONSES.__dict__`, `Response.from_string` fails with a `ValueError`
carrying the offending string; each class-namespace key finds a
non-`Response` attribute and fails the `isinstance` assertion
(an `AssertionError` carrying no string); each of the five valid names
returns the corresponding interned `Response` value. -/
theorem c8_from_string_contract :
    (∀ s : String, s ≠ "ALLOW_ONETIME" → s ≠ "DENY_ONETIME" → s ≠ "ALLOW_ALWAYS" →
      s ≠ "DENY_ALWAYS" → s ≠ "BLOCK" → s ∉ classDictExtraKeys →
      Response.from_string s = .error (.valueError s)) ∧
    (∀ s ∈ classDictExtraKeys,
      Response.from_string s = .error .assertionError) ∧
    Response.from_string "ALLOW_ONETIME" = .ok RESPONSES.ALLOW_ONETIME ∧
    Response.from_string "DENY_ONETIME" = .ok RESPONSES.DENY_ONETIME ∧
    Response.from_string "ALLOW_ALWAYS" = .ok RESPONSES.ALLOW_ALWAYS ∧
    Response.from_string "DENY_ALWAYS" = .ok RESPONSES.DENY_ALWAYS ∧
    Response.from_string "BLOCK" = .ok RESPONSES.BLOCK := by
  refine ⟨fun s h1 h2 h3 h4 h5 h6 => ?_, fun s hs => ?_, rfl, rfl, rfl, rfl, rfl⟩
  · unfold Response.from_string
    rw [if_neg h1, if_neg h2, if_neg h3, if_neg h4, if_neg h5, if_neg h6]
  · fin_cases hs <;> rfl

/-- Witness for C8 at the concrete names `"ALLOW"` (unknown, a
`ValueError`) and `"__doc__"` (class-namespace key, an
`AssertionError`). -/
theorem c8_witness :
    Response.from_string "ALLOW" = .error (.valueError "ALLOW") ∧
    Response.from_string "__doc__" = .error .assertionError :=
  ⟨c8_from_string_contract.1 "ALLOW" (by decide) (by decide) (by decide) (by decide)
    (by decide) (by decide),
   c8_from_string_contract.2.1 "__doc__" (by decide)⟩

/-! ## Frame lemmas for `lookup_decision` -/

theorem lookup_decision_state_eq (st : SysState) (s t f : String) :
    (lookup_decision st s t f).2 = st := by
  unfold lookup_decision
  cases (sortByFolderLen (matchesOf st.matrix s t f)).reverse <;> rfl

theorem lookup_decision_fst_eq (st st' : SysState) (s t f : String)
    (h : st.matrix = st'.matrix) :
    (lookup_decision st s t f).1 = (lookup_decision st' s t f).1 := by
  unfold lookup_decision
  rw [h]
  cases (sortByFolderLen (matchesOf st'.matrix s t f)).reverse <;> rfl

/-! ## C10: `lookup_decision` is a pure query -/

/-- C10: `lookup_decision` leaves the whole system state — matrix,
policy files and persisted document — unchanged, while
`lookup_prior_authorization` and `lookup_decision_folder` do on some
states consume a one-time entry and change the state. -/
theorem c10_lookup_decision_pure :
    (∀ (st : SysState) (s t f : String), (lookup_decision st s t f).2 = st) ∧
    (∃ (st : SysState) (s t f : String),
      (lookup_prior_authorization st s t f).2 ≠ st) ∧
    (∃ (st : SysState) (fp g : String),
      (lookup_decision_folder st fp g).2 ≠ st) := by
  refine ⟨lookup_decision_state_eq,
    ⟨⟨[("k", ⟨"a", "b", "/x", RESPONSES.ALLOW_ONETIME⟩)], [], .missing⟩, "a", "b", "/x",
      fun h => absurd (congrArg SysState.matrix h) (by decide)⟩,
    ⟨⟨[("k", ⟨"a", "b", "/x", RESPONSES.ALLOW_ONETIME⟩)], [], .missing⟩, "k", "/x",
      fun h => absurd (congrArg SysState.matrix h) (by decide)⟩⟩

/-! ## C2: `lookup_prior_authorization` -/

/-- C2: `lookup_prior_authorization` calls `lookup_decision`, revokes
any one-time entry stored under the returned fingerprint, and reports
the matched response exactly when a match exists and is not one-time;
in particular a one-time response is never reported back. -/
theorem c2_lookup_prior_authorization_contract (st : SysState) (s t f : String) :
    (lookup_prior_authorization st s t f).2 =
        revoke_onetime_accesses_for_fingerprint st (lookup_decision st s t f).1.2 ∧
    (lookup_prior_authorization st s t f).1.2 = (lookup_decision st s t f).1.2 ∧
    ((lookup_prior_authorization st s t f).1.1 =
      match (lookup_decision st s t f).1.1 with
      | some d => if d.response.is_onetime then none else some d.response
      | none => none) ∧
    (∀ resp, (lookup_prior_authorization st s t f).1.1 = some resp →
      resp.is_onetime = false) := by
  have hst := lookup_decision_state_eq st s t f
  have h2 : (lookup_prior_authorization st s t f).2 =
      revoke_onetime_accesses_for_fingerprint (lookup_decision st s t f).2
        (lookup_decision st s t f).1.2 := rfl
  have h1 : (lookup_prior_authorization st s t f).1 =
      (match (lookup_decision st s t f).1.1 with
       | some d =>
           if d.response.is_onetime = true
           then ((none : Option Response), (lookup_decision st s t f).1.2)
           else (some d.response, (lookup_decision st s t f).1.2)
       | none => (none, (lookup_decision st s t f).1.2)) := rfl
  refine ⟨by rw [h2, hst], ?_, ?_, ?_⟩
  · rw [h1]
    cases (lookup_decision st s t f).1.1 with
    | none => rfl
    | some d => simp only; split <;> rfl
  · rw [h1]
    cases (lookup_decision st s t f).1.1 with
    | none => rfl
    | some d => simp only; split <;> rfl
  · intro resp hr
    rw [h1] at hr
    revert hr
    cases (lookup_decision st s t f).1.1 with
    | none => intro hr; exact Option.noConfusion hr
    | some d =>
        simp only
        by_cases ho : d.response.is_onetime = true
        · rw [if_pos ho]; intro hr; exact Option.noConfusion hr
        · rw [if_neg ho]
          intro hr
          have hd : d.response = resp := Option.some.inj hr
          rw [← hd]
          exact Bool.eq_false_iff.mpr ho

/-- Witness for C2 at a concrete state: an `ALLOW_ALWAYS` match is
reported back and is not one-time. -/
theorem c2_witness :
    (lookup_prior_authorization
        ⟨[("k", ⟨"a", "b", "/x", RESPONSES.ALLOW_ALWAYS⟩)], [], .missing⟩
        "a" "b" "/x").1.1 = some RESPONSES.ALLOW_ALWAYS →
    RESPONSES.ALLOW_ALWAYS.is_onetime = false :=
  (c2_lookup_prior_authorization_contract
    ⟨[("k", ⟨"a", "b", "/x", RESPONSES.ALLOW_ALWAYS⟩)], [], .missing⟩ "a" "b" "/x").2.2.2
    RESPONSES.ALLOW_ALWAYS

/-! ## C9: `lookup_decision_folder` -/

/-- C9: `lookup_decision_folder` looks the entry up by exact
fingerprint key, consumes it when one-time (the state becomes the
revoked state), and returns the stored folder exactly when the entry
exists and the requested folder is contained in it. -/
theorem c9_lookup_decision_folder_contract (st : SysState) (fp g : String) :
    (lookup_decision_folder st fp g).2 =
        revoke_onetime_accesses_for_fingerprint st fp ∧
    ((lookup_decision_folder st fp g).1 =
      match lookupKey st.matrix fp with
      | some d => if contains g d.folder then some d.folder else none
      | none => none) ∧
    (∀ folder, (lookup_decision_folder st fp g).1 = some folder →
      ∃ d, lookupKey st.matrix fp = some d ∧ d.folder = folder ∧
        contains g folder = true) := by
  refine ⟨rfl, rfl, fun folder h => ?_⟩
  have h1 : (lookup_decision_folder st fp g).1 =
      (match lookupKey st.matrix fp with
       | some d => if contains g d.folder = true then some d.folder else none
       | none => none) := rfl
  rw [h1] at h
  revert h
  cases lookupKey st.matrix fp with
  | none => intro h; exact Option.noConfusion h
  | some d =>
      simp only
      by_cases hc : contains g d.folder = true
      · rw [if_pos hc]
        intro h
        obtain rfl := Option.some.inj h
        exact ⟨d, rfl, rfl, hc⟩
      · rw [if_neg hc]
        intro h
        exact Option.noConfusion h

/-- Witness for C9 at a concrete state: the authorized folder is
returned for a contained request. -/
theorem c9_witness :
    ∃ d, lookupKey
        (⟨[("k", ⟨"a", "b", "/x", RESPONSES.ALLOW_ALWAYS⟩)], [], .missing⟩ :
          SysState).matrix "k" = some d ∧ d.folder = "/x" ∧ contains "/x/y" "/x" = true :=
  (c9_lookup_decision_folder_contract
      ⟨[("k", ⟨"a", "b", "/x", RESPONSES.ALLOW_ALWAYS⟩)], [], .missing⟩ "k" "/x/y").2.2
    "/x" (by decide)

/-! ## C3: the lifecycle of a one-time grant -/

theorem matchesOf_single_self (k s t f : String) (r : Response) :
    matchesOf [(k, ⟨s, t, f, r⟩)] s t f = [(k, ⟨s, t, f, r⟩)] := by
  simp [matchesOf, contains_self]

theorem lookup_decision_single_self (st : SysState) (k s t f : String) (r : Response)
    (h : st.matrix = [(k, ⟨s, t, f, r⟩)]) :
    lookup_decision st s t f = ((some ⟨s, t, f, r⟩, k), st) := by
  unfold lookup_decision
  rw [h, matchesOf_single_self]
  rfl

/-- `lookup_prior_authorization` on an empty matrix: no decision, a
fresh fingerprint, and an unchanged state. -/
theorem lpa_empty (fl : Files) (db : DiskState) (s t f : String) :
    lookup_prior_authorization ⟨[], fl, db⟩ s t f =
      ((none, fingerprint_decision s t f), ⟨[], fl, db⟩) := rfl

/-- `lookup_prior_authorization` on a matrix holding exactly one
decision, a one-time one for the requested triple: report no response
and the stored key, and erase the matrix. -/
theorem lpa_single_onetime (k s t f : String) (r : Response) (fl' : Files)
    (db' : DiskState) (ho : r.is_onetime = true) :
    lookup_prior_authorization ⟨[(k, ⟨s, t, f, r⟩)], fl', db'⟩ s t f =
      ((none, k),
        ⟨[], apply_policy_changes_from [] fl', .doc (saveJson [])⟩) := by
  have hld : lookup_decision ⟨[(k, ⟨s, t, f, r⟩)], fl', db'⟩ s t f =
      ((some ⟨s, t, f, r⟩, k), ⟨[(k, ⟨s, t, f, r⟩)], fl', db'⟩) :=
    lookup_decision_single_self _ k s t f r rfl
  have hrev : revoke_onetime_accesses_for_fingerprint
      ⟨[(k, ⟨s, t, f, r⟩)], fl', db'⟩ k =
      ⟨[], apply_policy_changes_from [] fl', .doc (saveJson [])⟩ := by
    unfold revoke_onetime_accesses_for_fingerprint
    rw [show lookupKey (⟨[(k, ⟨s, t, f, r⟩)], fl', db'⟩ : SysState).matrix k =
        some ⟨s, t, f, r⟩ from by simp [lookupKey]]
    simp only [ho, if_true]
    rw [show eraseKey [(k, (⟨s, t, f, r⟩ : Decision))] k = [] from by simp [eraseKey]]
    rfl
  have h1 : (lookup_prior_authorization ⟨[(k, ⟨s, t, f, r⟩)], fl', db'⟩ s t f).1 =
      (none, k) := by
    rw [show (lookup_prior_authorization ⟨[(k, ⟨s, t, f, r⟩)], fl', db'⟩ s t f).1 =
        (match (lookup_decision ⟨[(k, ⟨s, t, f, r⟩)], fl', db'⟩ s t f).1.1 with
         | some d =>
             if d.response.is_onetime = true
             then ((none : Option Response),
               (lookup_decision ⟨[(k, ⟨s, t, f, r⟩)], fl', db'⟩ s t f).1.2)
             else (some d.response,
               (lookup_decision ⟨[(k, ⟨s, t, f, r⟩)], fl', db'⟩ s t f).1.2)
         | none => (none,
             (lookup_decision ⟨[(k, ⟨s, t, f, r⟩)], fl', db'⟩ s t f).1.2)) from rfl,
      hld]
    simp only [ho, if_true]
  have h2 : (lookup_prior_authorization ⟨[(k, ⟨s, t, f, r⟩)], fl', db'⟩ s t f).2 =
      ⟨[], apply_policy_changes_from [] fl', .doc (saveJson [])⟩ := by
    rw [show (lookup_prior_authorization ⟨[(k, ⟨s, t, f, r⟩)], fl', db'⟩ s t f).2 =
        revoke_onetime_accesses_for_fingerprint
          (lookup_decision ⟨[(k, ⟨s, t, f, r⟩)], fl', db'⟩ s t f).2
          (lookup_decision ⟨[(k, ⟨s, t, f, r⟩)], fl', db'⟩ s t f).1.2 from rfl, hld]
    exact hrev
  exact Prod.ext h1 h2

/-- C3 counterexample to the claim as stated: after recording
`ALLOW_ONETIME` for `("a", "b", "/x")` the *first*
`lookup_prior_authorization` for that triple does not return
`ALLOW_ONETIME` — it returns no-response (the one-time grant is
consumed, not reported). -/
theorem c3_counterexample :
    (lookup_prior_authorization
        (process_authorization_request ⟨[], [], .missing⟩ "a" "b" "/x"
          RESPONSES.ALLOW_ONETIME).2
        "a" "b" "/x").1.1 = none ∧
    (lookup_prior_authorization
        (process_authorization_request ⟨[], [], .missing⟩ "a" "b" "/x"
          RESPONSES.ALLOW_ONETIME).2
        "a" "b" "/x").1.1 ≠ some RESPONSES.ALLOW_ONETIME := by
  refine ⟨rfl, fun h => ?_⟩
  rw [show (lookup_prior_authorization
        (process_authorization_request ⟨[], [], .missing⟩ "a" "b" "/x"
          RESPONSES.ALLOW_ONETIME).2
        "a" "b" "/x").1.1 = none from rfl] at h
  exact Option.noConfusion h

/-- C3 (amended): after recording `ALLOW_ONETIME` for a triple, the
first `lookup_prior_authorization` for that triple returns no-response
together with the triple's fingerprint and erases the entry (the grant
is consumed); a second call returns no-decision together with a
freshly computed fingerprint for the triple, leaving the state as it
was after the first call. -/
theorem c3_onetime_consumed (s t f : String) (fl : Files) (db : DiskState) :
    (lookup_prior_authorization
        (process_authorization_request ⟨[], fl, db⟩ s t f RESPONSES.ALLOW_ONETIME).2
        s t f).1 = (none, fingerprint_decision s t f) ∧
    (lookup_prior_authorization
        (process_authorization_request ⟨[], fl, db⟩ s t f RESPONSES.ALLOW_ONETIME).2
        s t f).2.matrix = [] ∧
    (lookup_prior_authorization
        (lookup_prior_authorization
          (process_authorization_request ⟨[], fl, db⟩ s t f RESPONSES.ALLOW_ONETIME).2
          s t f).2
        s t f).1 = (none, fingerprint_decision s t f) ∧
    (lookup_prior_authorization
        (lookup_prior_authorization
          (process_authorization_request ⟨[], fl, db⟩ s t f RESPONSES.ALLOW_ONETIME).2
          s t f).2
        s t f).2 =
      (lookup_prior_authorization
        (process_authorization_request ⟨[], fl, db⟩ s t f RESPONSES.ALLOW_ONETIME).2
        s t f).2 := by
  have hpar : (process_authorization_request ⟨[], fl, db⟩ s t f
      RESPONSES.ALLOW_ONETIME).2 =
      ⟨[(fingerprint_decision s t f, ⟨s, t, f, RESPONSES.ALLOW_ONETIME⟩)],
        apply_policy_changes_from
          [(fingerprint_decision s t f, ⟨s, t, f, RESPONSES.ALLOW_ONETIME⟩)] fl,
        .doc (saveJson
          [(fingerprint_decision s t f, ⟨s, t, f, RESPONSES.ALLOW_ONETIME⟩)])⟩ := rfl
  have h1 := lpa_single_onetime (fingerprint_decision s t f) s t f
    RESPONSES.ALLOW_ONETIME
    (apply_policy_changes_from
      [(fingerprint_decision s t f, ⟨s, t, f, RESPONSES.ALLOW_ONETIME⟩)] fl)
    (.doc (saveJson
      [(fingerprint_decision s t f, ⟨s, t, f, RESPONSES.ALLOW_ONETIME⟩)]))
    rfl
  rw [hpar, h1]
  exact ⟨rfl, rfl, by rw [lpa_empty], by rw [lpa_empty]⟩

/-! ## C4: BLOCK is stored as a root-level permanent deny -/

theorem setKey_mem {α : Type} (l : List (String × α)) (k : String) (v : α) :
    (k, v) ∈ setKey l k v := by
  induction l with
  | nil => exact List.mem_singleton.mpr rfl
  | cons p rest ih =>
      rw [show setKey (p :: rest) k v =
        (if p.1 = k then (k, v) :: rest else p :: setKey rest k v) from rfl]
      split
      · exact List.mem_cons_self _ _
      · exact List.mem_cons_of_mem p ih

/-- C4: recording a BLOCK response stores `DENY_ALWAYS` for the root
folder `"/"` under the fingerprint of the widened triple, and that
entry is a match for every subsequent request on the same machine
pair, whatever folder is requested. -/
theorem c4_block_stores_root_deny (st : SysState) (s t f : String) (r : Response)
    (hb : r.is_block = true) :
    (process_authorization_request st s t f r).1 = fingerprint_decision s t "/" ∧
    (process_authorization_request st s t f r).2.matrix =
      setKey st.matrix (fingerprint_decision s t "/")
        ⟨s, t, "/", RESPONSES.DENY_ALWAYS⟩ ∧
    ∀ g : String,
      (fingerprint_decision s t "/", (⟨s, t, "/", RESPONSES.DENY_ALWAYS⟩ : Decision)) ∈
        matchesOf (process_authorization_request st s t f r).2.matrix s t g := by
  have hrf : (if r.is_block then (RESPONSES.DENY_ALWAYS, "/") else (r, f)) =
      (RESPONSES.DENY_ALWAYS, "/") := if_pos hb
  have hfst : (process_authorization_request st s t f r).1 =
      fingerprint_decision s t
        (if r.is_block then (RESPONSES.DENY_ALWAYS, "/") else (r, f)).2 := rfl
  have hsnd : (process_authorization_request st s t f r).2.matrix =
      setKey st.matrix
        (fingerprint_decision s t
          (if r.is_block then (RESPONSES.DENY_ALWAYS, "/") else (r, f)).2)
        ⟨s, t, (if r.is_block then (RESPONSES.DENY_ALWAYS, "/") else (r, f)).2,
          (if r.is_block then (RESPONSES.DENY_ALWAYS, "/") else (r, f)).1⟩ := rfl
  refine ⟨by rw [hfst, hrf], by rw [hsnd, hrf], fun g => ?_⟩
  rw [hsnd, hrf]
  refine List.mem_filter.mpr ⟨setKey_mem _ _ _, ?_⟩
  simp [contains_root]

/-- Witness for C4: a BLOCK recorded for `/x` matches a later request
for the unrelated folder `/y` on the same machine pair. -/
theorem c4_witness :
    RESPONSES.BLOCK.is_block = true ∧
    (fingerprint_decision "a" "b" "/",
      (⟨"a", "b", "/", RESPONSES.DENY_ALWAYS⟩ : Decision)) ∈
      matchesOf
        (process_authorization_request ⟨[], [], .missing⟩ "a" "b" "/x"
          RESPONSES.BLOCK).2.matrix
        "a" "b" "/y" :=
  ⟨rfl, (c4_block_stores_root_deny ⟨[], [], .missing⟩ "a" "b" "/x" RESPONSES.BLOCK
    rfl).2.2 "/y"⟩

/-! ## C1: the selection rule of `lookup_decision` -/

/-- Descending folder-length order, the iteration order of the
`reversed(sorted(...))` loop. -/
def folderLenDesc (a b : String × Decision) : Prop :=
  b.2.folder.length ≤ a.2.folder.length

instance : IsTotal (String × Decision)
    (fun a b => a.2.folder.length ≤ b.2.folder.length) :=
  ⟨fun a b => Nat.le_total _ _⟩

instance : IsTrans (String × Decision)
    (fun a b => a.2.folder.length ≤ b.2.folder.length) :=
  ⟨fun _ _ _ => Nat.le_trans⟩

theorem sortByFolderLen_sorted (l : List (String × Decision)) :
    List.Pairwise (fun a b : String × Decision =>
      a.2.folder.length ≤ b.2.folder.length) (sortByFolderLen l) :=
  List.sorted_insertionSort _ l

theorem sortByFolderLen_mem (l : List (String × Decision)) (e : String × Decision) :
    e ∈ sortByFolderLen l ↔ e ∈ l :=
  List.mem_insertionSort _

theorem mem_revsort_iff (l : List (String × Decision)) (e : String × Decision) :
    e ∈ (sortByFolderLen l).reverse ↔ e ∈ l := by
  rw [List.mem_reverse, sortByFolderLen_mem]

theorem revsort_desc (l : List (String × Decision)) :
    List.Pairwise folderLenDesc ((sortByFolderLen l).reverse) :=
  List.pairwise_reverse.mpr ((sortByFolderLen_sorted l).imp (fun h => h))

/-- The loop variable ends up holding one of the candidates. -/
theorem pick_mem : ∀ (l : List (String × Decision)) (p : String × Decision),
    pickFirstAllowOrLast p l ∈ p :: l
  | [], p => List.mem_singleton.mpr rfl
  | q :: rest, p => by
      rw [show pickFirstAllowOrLast p (q :: rest) =
        (if p.2.response.is_allow = true then p else pickFirstAllowOrLast q rest)
        from rfl]
      split
      · exact List.mem_cons_self _ _
      · exact List.mem_cons_of_mem p (pick_mem rest q)

/-- If some candidate is allow-type, the loop stops at an allow-type
candidate of maximal folder length among the allow-type candidates. -/
theorem pick_allow : ∀ (l : List (String × Decision)) (p : String × Decision),
    List.Pairwise folderLenDesc (p :: l) →
    (∃ e ∈ p :: l, e.2.response.is_allow = true) →
    (pickFirstAllowOrLast p l).2.response.is_allow = true ∧
    ∀ e ∈ p :: l, e.2.response.is_allow = true →
      e.2.folder.length ≤ (pickFirstAllowOrLast p l).2.folder.length
  | [], p, _, he => by
      obtain ⟨e, hm, ha⟩ := he
      rw [List.mem_singleton] at hm
      subst hm
      refine ⟨ha, fun e hm' _ => ?_⟩
      rw [List.mem_singleton] at hm'
      subst hm'
      exact Nat.le_refl _
  | q :: rest, p, hp, he => by
      rw [show pickFirstAllowOrLast p (q :: rest) =
        (if p.2.response.is_allow = true then p else pickFirstAllowOrLast q rest)
        from rfl]
      by_cases hap : p.2.response.is_allow = true
      · rw [if_pos hap]
        refine ⟨hap, fun e hm ha => ?_⟩
        rcases List.mem_cons.mp hm with h | h
        · subst h; exact Nat.le_refl _
        · exact (List.pairwise_cons.mp hp).1 e h
      · rw [if_neg hap]
        have hex : ∃ e ∈ q :: rest, e.2.response.is_allow = true := by
          obtain ⟨e, hm, ha⟩ := he
          rcases List.mem_cons.mp hm with h | h
          · subst h; exact absurd ha hap
          · exact ⟨e, h, ha⟩
        obtain ⟨ih1, ih2⟩ := pick_allow rest q (List.pairwise_cons.mp hp).2 hex
        refine ⟨ih1, fun e hm ha => ?_⟩
        rcases List.mem_cons.mp hm with h | h
        · subst h; exact absurd ha hap
        · exact ih2 e h ha

/-- If no candidate is allow-type, the loop runs to exhaustion and the
loop variable holds the last candidate — one of minimal folder length. -/
theorem pick_minlen : ∀ (l : List (String × Decision)) (p : String × Decision),
    List.Pairwise folderLenDesc (p :: l) →
    (∀ e ∈ p :: l, e.2.response.is_allow = false) →
    ∀ e ∈ p :: l, (pickFirstAllowOrLast p l).2.folder.length ≤ e.2.folder.length
  | [], _, _, _ => fun e hm => by
      rw [List.mem_singleton] at hm
      subst hm
      exact Nat.le_refl _
  | q :: rest, p, hp, hn => by
      have hap : p.2.response.is_allow = false := hn p (List.mem_cons_self _ _)
      rw [show pickFirstAllowOrLast p (q :: rest) =
        (if p.2.response.is_allow = true then p else pickFirstAllowOrLast q rest)
        from rfl, if_neg (by rw [hap]; exact Bool.false_ne_true)]
      have hsub := pick_minlen rest q (List.pairwise_cons.mp hp).2
        (fun e hm => hn e (List.mem_cons_of_mem p hm))
      intro e hm
      rcases List.mem_cons.mp hm with h | h
      · subst h
        exact (List.pairwise_cons.mp hp).1 _ (pick_mem rest q)
      · exact hsub e h

theorem matchesOf_mem_iff (m : DecisionMatrix) (s t f k : String) (d : Decision) :
    (k, d) ∈ matchesOf m s t f ↔
      ((k, d) ∈ m ∧ s = d.source ∧ t = d.target ∧ contains f d.folder = true) := by
  unfold matchesOf
  rw [List.mem_filter]
  simp [and_assoc]

/-- C1 counterexample to the claim as stated: with two deny-type
matches of different specificity, `lookup_decision` returns the
*least* specific one, not the most specific one.  The matrix holds a
`DENY_ALWAYS` for `/x` and a more specific `DENY_ONETIME` for `/x/y`;
the lookup of `/x/y` matches both, no match is allow-type, and the
code returns the `/x` entry although the `/x/y` entry is the
most-specific (longest-folder) match. -/
theorem c1_counterexample :
    (lookup_decision
        ⟨[("k1", ⟨"a", "b", "/x", RESPONSES.DENY_ALWAYS⟩),
          ("k2", ⟨"a", "b", "/x/y", RESPONSES.DENY_ONETIME⟩)], [], .missing⟩
        "a" "b" "/x/y").1 =
      (some ⟨"a", "b", "/x", RESPONSES.DENY_ALWAYS⟩, "k1") ∧
    ("k2", (⟨"a", "b", "/x/y", RESPONSES.DENY_ONETIME⟩ : Decision)) ∈
      matchesOf
        [("k1", ⟨"a", "b", "/x", RESPONSES.DENY_ALWAYS⟩),
         ("k2", ⟨"a", "b", "/x/y", RESPONSES.DENY_ONETIME⟩)]
        "a" "b" "/x/y" ∧
    ("/x/y" : String).length > ("/x" : String).length ∧
    (lookup_decision
        ⟨[("k1", ⟨"a", "b", "/x", RESPONSES.DENY_ALWAYS⟩),
          ("k2", ⟨"a", "b", "/x/y", RESPONSES.DENY_ONETIME⟩)], [], .missing⟩
        "a" "b" "/x/y").1 ≠
      (some ⟨"a", "b", "/x/y", RESPONSES.DENY_ONETIME⟩, "k2") :=
  ⟨by decide, by decide, by decide, by decide⟩

/-- C1 (amended): an entry matches iff its source and target equal the
request's and its folder contains the requested folder; with no match,
`lookup_decision` returns no-decision plus a fresh fingerprint; with
matches, it returns a matching entry, which is an allow-type entry of
maximal folder length among the allow-type matches whenever one
exists, and otherwise a match of *minimal* (least-specific) folder
length — the last candidate of the longest-to-shortest iteration. -/
theorem c1_lookup_decision_characterization (st : SysState) (s t f : String) :
    (∀ k d, (k, d) ∈ matchesOf st.matrix s t f ↔
      ((k, d) ∈ st.matrix ∧ s = d.source ∧ t = d.target ∧
        contains f d.folder = true)) ∧
    (matchesOf st.matrix s t f = [] →
      lookup_decision st s t f = ((none, fingerprint_decision s t f), st)) ∧
    (matchesOf st.matrix s t f ≠ [] →
      ∃ k d, lookup_decision st s t f = ((some d, k), st) ∧
        (k, d) ∈ matchesOf st.matrix s t f ∧
        ((∃ e ∈ matchesOf st.matrix s t f, e.2.response.is_allow = true) →
          d.response.is_allow = true ∧
          ∀ e ∈ matchesOf st.matrix s t f, e.2.response.is_allow = true →
            e.2.folder.length ≤ d.folder.length) ∧
        ((∀ e ∈ matchesOf st.matrix s t f, e.2.response.is_allow = false) →
          ∀ e ∈ matchesOf st.matrix s t f,
            d.folder.length ≤ e.2.folder.length)) := by
  refine ⟨fun k d => matchesOf_mem_iff st.matrix s t f k d, fun h => ?_, fun hne => ?_⟩
  · unfold lookup_decision
    rw [h]
    rfl
  · cases hL : (sortByFolderLen (matchesOf st.matrix s t f)).reverse with
    | nil =>
        exfalso
        apply hne
        have h0 : (sortByFolderLen (matchesOf st.matrix s t f)).length = 0 := by
          rw [← List.length_reverse, hL]
          rfl
        have h1 : (matchesOf st.matrix s t f).length = 0 := by
          rw [← List.length_insertionSort
            (fun a b : String × Decision => a.2.folder.length ≤ b.2.folder.length)]
          exact h0
        exact List.eq_nil_of_length_eq_zero h1
    | cons p rest =>
        have hdesc : List.Pairwise folderLenDesc (p :: rest) := by
          rw [← hL]
          exact revsort_desc _
        have hmemiff : ∀ e, e ∈ p :: rest ↔ e ∈ matchesOf st.matrix s t f := by
          intro e
          rw [← hL]
          exact mem_revsort_iff _ e
        refine ⟨(pickFirstAllowOrLast p rest).1, (pickFirstAllowOrLast p rest).2,
          ?_, ?_, ?_, ?_⟩
        · unfold lookup_decision
          rw [hL]
        · rw [show ((pickFirstAllowOrLast p rest).1, (pickFirstAllowOrLast p rest).2) =
            pickFirstAllowOrLast p rest from rfl]
          exact (hmemiff _).mp (pick_mem rest p)
        · intro hex
          have hex' : ∃ e ∈ p :: rest, e.2.response.is_allow = true := by
            obtain ⟨e, hm, ha⟩ := hex
            exact ⟨e, (hmemiff e).mpr hm, ha⟩
          obtain ⟨h1, h2⟩ := pick_allow rest p hdesc hex'
          exact ⟨h1, fun e hm ha => h2 e ((hmemiff e).mpr hm) ha⟩
        · intro hall
          have hall' : ∀ e ∈ p :: rest, e.2.response.is_allow = false :=
            fun e hm => hall e ((hmemiff e).mp hm)
          exact fun e hm =>
            pick_minlen rest p hdesc hall' e ((hmemiff e).mpr hm)

/-- Witness for C1 at a concrete two-entry matrix, exercising the
no-allow branch of the characterization. -/
theorem c1_witness :
    matchesOf
        [("k1", ⟨"a", "b", "/x", RESPONSES.DENY_ALWAYS⟩),
         ("k2", ⟨"a", "b", "/x/y", RESPONSES.DENY_ONETIME⟩)]
        "a" "b" "/x/y" ≠ [] ∧
    ∃ k d,
      lookup_decision
          ⟨[("k1", ⟨"a", "b", "/x", RESPONSES.DENY_ALWAYS⟩),
            ("k2", ⟨"a", "b", "/x/y", RESPONSES.DENY_ONETIME⟩)], [], .missing⟩
          "a" "b" "/x/y" =
        ((some d, k),
          ⟨[("k1", ⟨"a", "b", "/x", RESPONSES.DENY_ALWAYS⟩),
            ("k2", ⟨"a", "b", "/x/y", RESPONSES.DENY_ONETIME⟩)], [], .missing⟩) ∧
      (k, d) ∈ matchesOf
          [("k1", ⟨"a", "b", "/x", RESPONSES.DENY_ALWAYS⟩),
           ("k2", ⟨"a", "b", "/x/y", RESPONSES.DENY_ONETIME⟩)]
          "a" "b" "/x/y" ∧
      ((∃ e ∈ matchesOf
          [("k1", ⟨"a", "b", "/x", RESPONSES.DENY_ALWAYS⟩),
           ("k2", ⟨"a", "b", "/x/y", RESPONSES.DENY_ONETIME⟩)]
          "a" "b" "/x/y", e.2.response.is_allow = true) →
        d.response.is_allow = true ∧
        ∀ e ∈ matchesOf
            [("k1", ⟨"a", "b", "/x", RESPONSES.DENY_ALWAYS⟩),
             ("k2", ⟨"a", "b", "/x/y", RESPONSES.DENY_ONETIME⟩)]
            "a" "b" "/x/y", e.2.response.is_allow = true →
          e.2.folder.length ≤ d.folder.length) ∧
      ((∀ e ∈ matchesOf
          [("k1", ⟨"a", "b", "/x", RESPONSES.DENY_ALWAYS⟩),
           ("k2", ⟨"a", "b", "/x/y", RESPONSES.DENY_ONETIME⟩)]
          "a" "b" "/x/y", e.2.response.is_allow = false) →
        ∀ e ∈ matchesOf
            [("k1", ⟨"a", "b", "/x", RESPONSES.DENY_ALWAYS⟩),
             ("k2", ⟨"a", "b", "/x/y", RESPONSES.DENY_ONETIME⟩)]
            "a" "b" "/x/y", d.folder.length ≤ e.2.folder.length) :=
  ⟨by decide,
    (c1_lookup_decision_characterization
      ⟨[("k1", ⟨"a", "b", "/x", RESPONSES.DENY_ALWAYS⟩),
        ("k2", ⟨"a", "b", "/x/y", RESPONSES.DENY_ONETIME⟩)], [], .missing⟩
      "a" "b" "/x/y").2.2 (by decide)⟩

/-! ## C5: reconciliation of the policy-file directory -/

theorem hasFile_iff (fs : Files) (p : String) :
    hasFile fs p = true ↔ ∃ c, (p, c) ∈ fs := by
  unfold hasFile
  rw [List.any_eq_true]
  constructor
  · rintro ⟨x, hx, he⟩
    rw [beq_iff_eq] at he
    exact ⟨x.2, by rw [← he, Prod.mk.eta]; exact hx⟩
  · rintro ⟨c, hc⟩
    exact ⟨(p, c), hc, by rw [beq_iff_eq]⟩

theorem bool_eq_of_iff {a b : Bool} (h : (a = true) ↔ (b = true)) : a = b := by
  cases a <;> cases b <;> simp_all

theorem ctf_policy_inj {a b : String} (h : ctf_policy a = ctf_policy b) : a = b := by
  unfold ctf_policy at h
  have hd := congrArg String.data h
  rw [String.data_append, String.data_append] at hd
  exact String.ext (List.append_cancel_left hd)

theorem globMatch_ctf (fp : String) (h : ('/' : Char) ∉ fp.toList) :
    globMatch (ctf_policy fp) = true := by
  unfold globMatch ctf_policy
  rw [Bool.and_eq_true]
  constructor
  · unfold strStartsWith
    rw [toList_append, List.isPrefixOf_iff_prefix]
    exact List.prefix_append _ _
  · rw [toList_append, show FNTPL.length = FNTPL.toList.length from rfl,
      List.drop_left]
    have hc : fp.toList.contains '/' = false := by
      cases hcc : fp.toList.contains '/'
      · rfl
      · exact absurd (List.elem_iff.mp hcc) h
    rw [hc]
    rfl

theorem revoke_for_mem (fs : Files) (k p c : String) :
    (p, c) ∈ revoke_for fs k ↔ ((p, c) ∈ fs ∧ p ≠ ctf_policy k) := by
  unfold revoke_for
  rw [List.mem_filter]
  simp

theorem grant_for_mem (fs : Files) (s t k p c : String) :
    (p, c) ∈ grant_for fs s t k ↔
      ((p, c) ∈ fs ∨ (hasFile fs (ctf_policy k) = false ∧ p = ctf_policy k ∧
        c = s ++ " " ++ t ++ " allow")) := by
  unfold grant_for
  by_cases hh : hasFile fs (ctf_policy k) = true
  · rw [if_pos hh]
    constructor
    · exact Or.inl
    · rintro (h | ⟨hf, _, _⟩)
      · exact h
      · rw [hh] at hf
        exact Bool.noConfusion hf
  · rw [if_neg hh]
    have hh' : hasFile fs (ctf_policy k) = false := by
      cases hq : hasFile fs (ctf_policy k)
      · rfl
      · exact absurd hq hh
    rw [List.mem_append, List.mem_singleton, Prod.mk.injEq]
    constructor
    · rintro (h | ⟨h1, h2⟩)
      · exact Or.inl h
      · exact Or.inr ⟨hh', h1, h2⟩
    · rintro (h | ⟨_, h1, h2⟩)
      · exact Or.inl h
      · exact Or.inr ⟨h1, h2⟩

theorem grant_for_nodup (fs : Files) (s t k : String)
    (h : (fs.map Prod.fst).Nodup) : ((grant_for fs s t k).map Prod.fst).Nodup := by
  unfold grant_for
  by_cases hh : hasFile fs (ctf_policy k) = true
  · rw [if_pos hh]
    exact h
  · rw [if_neg hh]
    rw [List.map_append]
    refine List.Nodup.append h (List.nodup_singleton _) ?_
    intro a ha hb
    rw [show (([(ctf_policy k, s ++ " " ++ t ++ " allow")] : Files).map Prod.fst) =
      [ctf_policy k] from rfl, List.mem_singleton] at hb
    subst hb
    apply hh
    rw [hasFile_iff]
    obtain ⟨x, hx, hxe⟩ := List.mem_map.mp ha
    exact ⟨x.2, by rw [← hxe, Prod.mk.eta]; exact hx⟩

theorem revoke_for_nodup (fs : Files) (k : String)
    (h : (fs.map Prod.fst).Nodup) : ((revoke_for fs k).map Prod.fst).Nodup :=
  h.sublist ((List.filter_sublist fs).map Prod.fst)

theorem fsStep_nodup (fs : Files) (e : String × Decision)
    (h : (fs.map Prod.fst).Nodup) : ((fsStep fs e).map Prod.fst).Nodup := by
  unfold fsStep
  split
  · exact grant_for_nodup fs _ _ _ h
  · exact revoke_for_nodup fs _ h

theorem fsStep_hasFile_ne (fs : Files) (e : String × Decision) (p : String)
    (hne : p ≠ ctf_policy e.1) : hasFile (fsStep fs e) p = hasFile fs p := by
  apply bool_eq_of_iff
  rw [hasFile_iff, hasFile_iff]
  unfold fsStep
  split
  · constructor
    · rintro ⟨c, hc⟩
      rcases (grant_for_mem fs _ _ _ p c).mp hc with h | ⟨_, hpe, _⟩
      · exact ⟨c, h⟩
      · exact absurd hpe hne
    · rintro ⟨c, hc⟩
      exact ⟨c, (grant_for_mem fs _ _ _ p c).mpr (Or.inl hc)⟩
  · constructor
    · rintro ⟨c, hc⟩
      exact ⟨c, ((revoke_for_mem fs _ p c).mp hc).1⟩
    · rintro ⟨c, hc⟩
      exact ⟨c, (revoke_for_mem fs _ p c).mpr ⟨hc, hne⟩⟩

/-- Characterization of the glob-listing fold: a path survives iff it
was in the initial listing and belongs to no matrix entry. -/
theorem exFold_spec : ∀ (m : DecisionMatrix) (ex : List String), ex.Nodup →
    (m.foldl exStep ex).Nodup ∧
    (∀ p, p ∈ m.foldl exStep ex ↔ (p ∈ ex ∧ ∀ e ∈ m, p ≠ ctf_policy e.1))
  | [], ex, h => ⟨h, by simp⟩
  | e₀ :: m', ex, h => by
      have hstep : ∀ p, p ∈ exStep ex e₀ ↔ (p ∈ ex ∧ p ≠ ctf_policy e₀.1) := by
        intro p
        unfold exStep
        split
        · exact (h.mem_erase_iff).trans and_comm
        case isFalse hc =>
          have hnc : ctf_policy e₀.1 ∉ ex := fun hm => hc (List.elem_iff.mpr hm)
          exact ⟨fun hp => ⟨hp, fun he => hnc (he ▸ hp)⟩, fun hp => hp.1⟩
      have hnd : (exStep ex e₀).Nodup := by
        unfold exStep
        split
        · exact h.erase _
        · exact h
      obtain ⟨ihnd, ihmem⟩ := exFold_spec m' (exStep ex e₀) hnd
      refine ⟨ihnd, fun p => ?_⟩
      rw [show (e₀ :: m').foldl exStep ex = m'.foldl exStep (exStep ex e₀) from rfl,
        ihmem p, hstep p]
      constructor
      · rintro ⟨⟨hp, hne⟩, hall⟩
        refine ⟨hp, fun e hme => ?_⟩
        rcases List.mem_cons.mp hme with he | hme'
        · rw [he]; exact hne
        · exact hall e hme'
      · rintro ⟨hp, hall⟩
        exact ⟨⟨hp, hall e₀ (List.mem_cons_self _ _)⟩,
          fun e hme => hall e (List.mem_cons_of_mem _ hme)⟩

/-- Characterization of the directory fold: a file survives iff it was
present and every matrix entry owning its path is allow-type, or it
was newly created for an allow-type entry whose path had no file. -/
theorem fsFold_spec : ∀ (m : DecisionMatrix) (fs : Files),
    (m.map Prod.fst).Nodup → (fs.map Prod.fst).Nodup →
    ((m.foldl fsStep fs).map Prod.fst).Nodup ∧
    (∀ p c, (p, c) ∈ m.foldl fsStep fs ↔
      (((p, c) ∈ fs ∧ ∀ e ∈ m, p = ctf_policy e.1 → e.2.response.is_allow = true) ∨
       (∃ e ∈ m, e.2.response.is_allow = true ∧ p = ctf_policy e.1 ∧
         hasFile fs p = false ∧
         c = e.2.source ++ " " ++ e.2.target ++ " allow")))
  | [], fs, _, hf => ⟨hf, by simp⟩
  | e₀ :: m', fs, hk, hf => by
      have hk0 : e₀.1 ∉ m'.map Prod.fst ∧ (m'.map Prod.fst).Nodup := by
        rw [show (e₀ :: m').map Prod.fst = e₀.1 :: m'.map Prod.fst from rfl,
          List.nodup_cons] at hk
        exact hk
      have hkey : ∀ e ∈ m', ctf_policy e.1 ≠ ctf_policy e₀.1 := by
        intro e he heq
        exact hk0.1 (List.mem_map.mpr ⟨e, he, ctf_policy_inj heq⟩)
      have hf1 : ((fsStep fs e₀).map Prod.fst).Nodup := fsStep_nodup fs e₀ hf
      obtain ⟨ihnd, ihmem⟩ := fsFold_spec m' (fsStep fs e₀) hk0.2 hf1
      refine ⟨ihnd, fun p c => ?_⟩
      rw [show (e₀ :: m').foldl fsStep fs = m'.foldl fsStep (fsStep fs e₀) from rfl,
        ihmem p c]
      by_cases hall : e₀.2.response.is_allow = true
      · have hgr : fsStep fs e₀ = grant_for fs e₀.2.source e₀.2.target e₀.1 := by
          unfold fsStep
          rw [if_pos hall]
        constructor
        · rintro (⟨hmem, hcond⟩ | ⟨e, he, hea, hp, hhf, hc⟩)
          · rw [hgr] at hmem
            rcases (grant_for_mem fs _ _ _ p c).mp hmem with hin | ⟨hnf, hpe, hce⟩
            · refine Or.inl ⟨hin, fun e hme hpe => ?_⟩
              rcases List.mem_cons.mp hme with he | hme'
              · rw [he]; exact hall
              · exact hcond e hme' hpe
            · exact Or.inr ⟨e₀, List.mem_cons_self _ _, hall, hpe,
                by rw [hpe]; exact hnf, hce⟩
          · have hpe0 : p ≠ ctf_policy e₀.1 := by rw [hp]; exact hkey e he
            have hhf' : hasFile fs p = false := by
              rw [← fsStep_hasFile_ne fs e₀ p hpe0]
              exact hhf
            exact Or.inr ⟨e, List.mem_cons_of_mem _ he, hea, hp, hhf', hc⟩
        · rintro (⟨hmem, hcond⟩ | ⟨e, he, hea, hp, hhf, hc⟩)
          · refine Or.inl ⟨?_, fun e hme hpe => hcond e (List.mem_cons_of_mem _ hme) hpe⟩
            rw [hgr]
            exact (grant_for_mem fs _ _ _ p c).mpr (Or.inl hmem)
          · rcases List.mem_cons.mp he with he0 | he'
            · refine Or.inl ⟨?_, fun e' hme' hpe' => ?_⟩
              · rw [hgr]
                refine (grant_for_mem fs _ _ _ p c).mpr (Or.inr ⟨?_, ?_, ?_⟩)
                · rw [← he0, ← hp]
                  exact hhf
                · rw [he0] at hp
                  exact hp
                · rw [he0] at hc
                  exact hc
              · exfalso
                apply hkey e' hme'
                rw [← hpe']
                rw [he0] at hp
                exact hp
            · have hpe0 : p ≠ ctf_policy e₀.1 := by rw [hp]; exact hkey e he'
              refine Or.inr ⟨e, he', hea, hp, ?_, hc⟩
              rw [fsStep_hasFile_ne fs e₀ p hpe0]
              exact hhf
      · have hall' : e₀.2.response.is_allow = false := by
          cases hq : e₀.2.response.is_allow
          · rfl
          · exact absurd hq hall
        have hrv : fsStep fs e₀ = revoke_for fs e₀.1 := by
          unfold fsStep
          rw [if_neg hall]
        constructor
        · rintro (⟨hmem, hcond⟩ | ⟨e, he, hea, hp, hhf, hc⟩)
          · rw [hrv] at hmem
            obtain ⟨hin, hne⟩ := (revoke_for_mem fs _ p c).mp hmem
            refine Or.inl ⟨hin, fun e hme hpe => ?_⟩
            rcases List.mem_cons.mp hme with he | hme'
            · exfalso
              apply hne
              rw [he] at hpe
              exact hpe
            · exact hcond e hme' hpe
          · have hpe0 : p ≠ ctf_policy e₀.1 := by rw [hp]; exact hkey e he
            have hhf' : hasFile fs p = false := by
              rw [← fsStep_hasFile_ne fs e₀ p hpe0]
              exact hhf
            exact Or.inr ⟨e, List.mem_cons_of_mem _ he, hea, hp, hhf', hc⟩
        · rintro (⟨hmem, hcond⟩ | ⟨e, he, hea, hp, hhf, hc⟩)
          · have hne : p ≠ ctf_policy e₀.1 := by
              intro hpe
              have := hcond e₀ (List.mem_cons_self _ _) hpe
              rw [hall'] at this
              exact Bool.noConfusion this
            refine Or.inl ⟨?_, fun e hme hpe => hcond e (List.mem_cons_of_mem _ hme) hpe⟩
            rw [hrv]
            exact (revoke_for_mem fs _ p c).mpr ⟨hmem, hne⟩
          · rcases List.mem_cons.mp he with he0 | he'
            · exfalso
              rw [he0, hall'] at hea
              exact Bool.noConfusion hea
            · have hpe0 : p ≠ ctf_policy e₀.1 := by rw [hp]; exact hkey e he'
              refine Or.inr ⟨e, he', hea, hp, ?_, hc⟩
              rw [fsStep_hasFile_ne fs e₀ p hpe0]
              exact hhf

theorem foldl_applyStep_split : ∀ (m : DecisionMatrix) (ex : List String) (fs : Files),
    m.foldl applyStep (ex, fs) = (m.foldl exStep ex, m.foldl fsStep fs)
  | [], _, _ => rfl
  | e₀ :: m', ex, fs => by
      rw [show (e₀ :: m').foldl applyStep (ex, fs) =
        m'.foldl applyStep (applyStep (ex, fs) e₀) from rfl]
      exact foldl_applyStep_split m' _ _

theorem deleteAll_mem : ∀ (ps : List String) (fs : Files) (p c : String),
    (p, c) ∈ deleteAll fs ps ↔ ((p, c) ∈ fs ∧ p ∉ ps)
  | [], fs, p, c => by simp [deleteAll]
  | q :: ps', fs, p, c => by
      rw [show deleteAll fs (q :: ps') =
        deleteAll (fs.filter (fun f => !(f.1 == q))) ps' from rfl,
        deleteAll_mem ps' _ p c, List.mem_filter]
      simp only [List.mem_cons, not_or, Bool.not_eq_true', beq_eq_false_iff_ne,
        ne_eq]
      tauto

theorem apply_policy_eq (m : DecisionMatrix) (fs : Files) :
    apply_policy_changes_from m fs =
      deleteAll (m.foldl fsStep fs)
        (m.foldl exStep ((fs.map Prod.fst).filter globMatch)) := by
  show deleteAll (m.foldl applyStep ((fs.map Prod.fst).filter globMatch, fs)).2
      (m.foldl applyStep ((fs.map Prod.fst).filter globMatch, fs)).1 = _
  rw [foldl_applyStep_split]

/-- C5 counterexample to the claim as stated: a pre-existing policy
file at an allow-fingerprint's path is kept with its previous content —
`grant_for` returns early when the file exists — so the reconciled file
need not contain `"<source> <target> allow"`. -/
theorem c5_counterexample :
    apply_policy_changes_from [("f1", ⟨"a", "b", "/x", RESPONSES.ALLOW_ALWAYS⟩)]
        [(ctf_policy "f1", "junk")] = [(ctf_policy "f1", "junk")] ∧
    ("junk" : String) ≠ "a b allow" :=
  ⟨by decide, by decide⟩

/-- C5 (amended): after `apply_policy_changes_from(matrix)`, a
template-matching path carries a file exactly when it is the policy
path of an allow-type fingerprint of the matrix — so every
template-matching file for a non-allow or absent fingerprint is
removed; a file newly created for an allow-type fingerprint contains
`"<source> <target> allow"`, while a pre-existing file at such a path
survives with its prior content. -/
theorem c5_reconciliation_invariant (m : DecisionMatrix) (fs : Files)
    (hk : (m.map Prod.fst).Nodup)
    (hslash : ∀ e ∈ m, ('/' : Char) ∉ e.1.toList)
    (hf : (fs.map Prod.fst).Nodup) :
    (∀ p, (globMatch p = true ∧ ∃ c, (p, c) ∈ apply_policy_changes_from m fs) ↔
      (∃ e ∈ m, e.2.response.is_allow = true ∧ p = ctf_policy e.1)) ∧
    (∀ e ∈ m, e.2.response.is_allow = true → hasFile fs (ctf_policy e.1) = false →
      (ctf_policy e.1, e.2.source ++ " " ++ e.2.target ++ " allow") ∈
        apply_policy_changes_from m fs) := by
  have hex0 : ((fs.map Prod.fst).filter globMatch).Nodup := hf.filter _
  obtain ⟨hfsnd, hfsmem⟩ := fsFold_spec m fs hk hf
  obtain ⟨hexnd, hexmem⟩ := exFold_spec m ((fs.map Prod.fst).filter globMatch) hex0
  have hmem' : ∀ p c, (p, c) ∈ apply_policy_changes_from m fs ↔
      ((p, c) ∈ m.foldl fsStep fs ∧
        p ∉ m.foldl exStep ((fs.map Prod.fst).filter globMatch)) := by
    intro p c
    rw [apply_policy_eq, deleteAll_mem]
  have hnotex : ∀ p, (∃ e ∈ m, p = ctf_policy e.1) →
      p ∉ m.foldl exStep ((fs.map Prod.fst).filter globMatch) := by
    rintro p ⟨e, he, hp⟩ hmem
    exact ((hexmem p).mp hmem).2 e he hp
  constructor
  · intro p
    constructor
    · rintro ⟨hg, c, hc⟩
      rw [hmem' p c] at hc
      obtain ⟨hcf, hnex⟩ := hc
      rcases (hfsmem p c).mp hcf with ⟨hin, hcond⟩ | ⟨e, he, hea, hp, _, _⟩
      · have hpex : p ∈ (fs.map Prod.fst).filter globMatch :=
          List.mem_filter.mpr
            ⟨List.mem_map.mpr ⟨(p, c), hin, rfl⟩, hg⟩
        rw [hexmem p] at hnex
        push_neg at hnex
        obtain ⟨e, he, hp⟩ := hnex hpex
        exact ⟨e, he, hcond e he hp, hp⟩
      · exact ⟨e, he, hea, hp⟩
    · rintro ⟨e, he, hea, hp⟩
      have hg : globMatch p = true := by
        rw [hp]
        exact globMatch_ctf e.1 (hslash e he)
      refine ⟨hg, ?_⟩
      by_cases hhf : hasFile fs p = true
      · obtain ⟨c₀, hc₀⟩ := (hasFile_iff fs p).mp hhf
        refine ⟨c₀, (hmem' p c₀).mpr ⟨?_, hnotex p ⟨e, he, hp⟩⟩⟩
        refine (hfsmem p c₀).mpr (Or.inl ⟨hc₀, fun e' he' hpe' => ?_⟩)
        have hee : e' = e :=
          List.inj_on_of_nodup_map hk he' he (ctf_policy_inj (by rw [← hpe', hp]))
        rw [hee]
        exact hea
      · have hhf' : hasFile fs p = false := by
          cases hq : hasFile fs p
          · rfl
          · exact absurd hq hhf
        refine ⟨e.2.source ++ " " ++ e.2.target ++ " allow",
          (hmem' p _).mpr ⟨?_, hnotex p ⟨e, he, hp⟩⟩⟩
        exact (hfsmem p _).mpr (Or.inr ⟨e, he, hea, hp, hhf', rfl⟩)
  · intro e he hea hnf
    refine (hmem' _ _).mpr ⟨?_, hnotex _ ⟨e, he, rfl⟩⟩
    exact (hfsmem _ _).mpr (Or.inr ⟨e, he, hea, rfl, hnf, rfl⟩)

/-- Witness for C5 at a one-entry matrix over an empty directory: the
allow decision's policy file is created with the documented content. -/
theorem c5_witness :
    (ctf_policy "f1", "a" ++ " " ++ "b" ++ " allow") ∈
      apply_policy_changes_from [("f1", ⟨"a", "b", "/x", RESPONSES.ALLOW_ALWAYS⟩)]
        [] :=
  (c5_reconciliation_invariant
      [("f1", ⟨"a", "b", "/x", RESPONSES.ALLOW_ALWAYS⟩)] [] (by decide) (by decide)
      (by decide)).2
    ("f1", ⟨"a", "b", "/x", RESPONSES.ALLOW_ALWAYS⟩) (by decide) (by decide) (by decide)

/-! ## C6 and C7: persistence round-trip and total load -/

theorem interp_str (s : String) : interp (.str s) = .ok (.js s) := rfl

theorem interp_obj (fields : JFields) :
    interp (.obj fields) =
      Except.bind (interpFields fields) (fun fs => loadHook (dictOf fs)) := rfl

theorem interpFields_nil : interpFields .nil = .ok [] := rfl

theorem interpFields_cons (k : String) (v : JsonVal) (rest : JFields) :
    interpFields (.cons k v rest) =
      Except.bind (interp v) (fun h =>
        Except.bind (interpFields rest) (fun hs => .ok ((k, h) :: hs))) := rfl

theorem from_string_name (r : Response) (h : r ∈ fiveResponses) :
    Response.from_string r.name = .ok r := by
  fin_cases h <;> rfl

theorem resolveResponse_name (r : Response) (h : r ∈ fiveResponses) :
    resolveResponse r.name = .ok r := by
  unfold resolveResponse
  rw [from_string_name r h]

/-- Any name outside the five-response enumeration makes the resolver
fail on the load path (with a `ValueError` or an `AssertionError`). -/
theorem resolveResponse_error (rn : String)
    (h : rn ∉ ["ALLOW_ONETIME", "DENY_ONETIME", "ALLOW_ALWAYS",
      "DENY_ALWAYS", "BLOCK"]) :
    ∃ e, resolveResponse rn = .error e := by
  have h1 : rn ≠ "ALLOW_ONETIME" := fun he => h (by rw [he]; decide)
  have h2 : rn ≠ "DENY_ONETIME" := fun he => h (by rw [he]; decide)
  have h3 : rn ≠ "ALLOW_ALWAYS" := fun he => h (by rw [he]; decide)
  have h4 : rn ≠ "DENY_ALWAYS" := fun he => h (by rw [he]; decide)
  have h5 : rn ≠ "BLOCK" := fun he => h (by rw [he]; decide)
  unfold resolveResponse Response.from_string
  rw [if_neg h1, if_neg h2, if_neg h3, if_neg h4, if_neg h5]
  by_cases h6 : rn ∈ classDictExtraKeys
  · rw [if_pos h6]
    exact ⟨"AssertionError", rfl⟩
  · rw [if_neg h6]
    exact ⟨"ValueError: " ++ rn, rfl⟩

theorem setKey_not_mem {α : Type} : ∀ (l : List (String × α)) (k : String) (v : α),
    k ∉ l.map Prod.fst → setKey l k v = l ++ [(k, v)]
  | [], _, _, _ => rfl
  | p :: rest, k, v, h => by
      rw [show setKey (p :: rest) k v =
        (if p.1 = k then (k, v) :: rest else p :: setKey rest k v) from rfl,
        if_neg (fun he => h (by rw [← he]; exact List.mem_cons_self _ _)),
        setKey_not_mem rest k v (fun hm => h (List.mem_cons_of_mem _ hm))]
      rfl

theorem foldl_setKey_append {α : Type} : ∀ (l acc : List (String × α)),
    (∀ p ∈ l, p.1 ∉ acc.map Prod.fst) → (l.map Prod.fst).Nodup →
    l.foldl (fun a p => setKey a p.1 p.2) acc = acc ++ l
  | [], acc, _, _ => by simp
  | p :: rest, acc, hdisj, hnd => by
      have hnd' : (p.1 ∉ rest.map Prod.fst) ∧ (rest.map Prod.fst).Nodup := by
        rw [show (p :: rest).map Prod.fst = p.1 :: rest.map Prod.fst from rfl,
          List.nodup_cons] at hnd
        exact hnd
      rw [show (p :: rest).foldl (fun a p => setKey a p.1 p.2) acc =
        rest.foldl (fun a p => setKey a p.1 p.2) (setKey acc p.1 p.2) from rfl,
        setKey_not_mem acc p.1 p.2 (hdisj p (List.mem_cons_self _ _)),
        foldl_setKey_append rest (acc ++ [(p.1, p.2)]) ?_ hnd'.2]
      · simp
      · intro q hq
        rw [List.map_append, List.mem_append]
        rintro (h | h)
        · exact hdisj q (List.mem_cons_of_mem _ hq) h
        · rw [show ([(p.1, p.2)] : List (String × α)).map Prod.fst = [p.1] from rfl,
            List.mem_singleton] at h
          exact hnd'.1 (h ▸ List.mem_map.mpr ⟨q, hq, rfl⟩)

theorem dictOf_nodup {α : Type} (l : List (String × α))
    (h : (l.map Prod.fst).Nodup) : dictOf l = l := by
  unfold dictOf
  rw [foldl_setKey_append l [] (by simp) h]
  rfl

theorem lookupKey_none {α : Type} : ∀ (l : List (String × α)) (k : String),
    (∀ p ∈ l, p.1 ≠ k) → lookupKey l k = none
  | [], _, _ => rfl
  | p :: rest, k, h => by
      rw [show lookupKey (p :: rest) k =
        (if p.1 = k then some p.2 else lookupKey rest k) from rfl,
        if_neg (h p (List.mem_cons_self _ _)),
        lookupKey_none rest k (fun q hq => h q (List.mem_cons_of_mem _ hq))]

theorem lookupKey_map {α β : Type} (g : α → β) : ∀ (l : List (String × α)) (k : String),
    lookupKey (l.map (fun e => (e.1, g e.2))) k = (lookupKey l k).map g
  | [], _ => rfl
  | p :: rest, k => by
      rw [show (p :: rest).map (fun e => (e.1, g e.2)) =
        (p.1, g p.2) :: rest.map (fun e => (e.1, g e.2)) from rfl,
        show lookupKey ((p.1, g p.2) :: rest.map (fun e => (e.1, g e.2))) k =
          (if p.1 = k then some (g p.2) else
            lookupKey (rest.map (fun e => (e.1, g e.2))) k) from rfl,
        show lookupKey (p :: rest) k =
          (if p.1 = k then some p.2 else lookupKey rest k) from rfl]
      split
      · rfl
      · exact lookupKey_map g rest k

theorem lookupKey_perm {α : Type} {l l' : List (String × α)} (hp : l.Perm l') :
    (l.map Prod.fst).Nodup → ∀ k, lookupKey l k = lookupKey l' k := by
  induction hp with
  | nil => exact fun _ _ => rfl
  | cons x _ ih =>
      intro hnd k
      rw [List.map_cons, List.nodup_cons] at hnd
      rw [show ∀ (t : List (String × α)), lookupKey (x :: t) k =
        (if x.1 = k then some x.2 else lookupKey t k) from fun _ => rfl,
        show ∀ (t : List (String × α)), lookupKey (x :: t) k =
        (if x.1 = k then some x.2 else lookupKey t k) from fun _ => rfl]
      rw [ih hnd.2 k]
  | swap x y l =>
      intro hnd k
      rw [List.map_cons, List.map_cons, List.nodup_cons] at hnd
      have hxy : y.1 ≠ x.1 := by
        intro he
        exact hnd.1 (by rw [he]; exact List.mem_cons_self _ _)
      by_cases hx : x.1 = k <;> by_cases hy : y.1 = k
      · exact absurd (hy.trans hx.symm) hxy
      · simp [lookupKey, hx, hy]
      · simp [lookupKey, hx, hy]
      · simp [lookupKey, hx, hy]
  | trans h1 _ ih1 ih2 =>
      intro hnd k
      rw [ih1 hnd k, ih2 (((h1.map Prod.fst).nodup_iff).mp hnd) k]

theorem interp_decisionDoc (d : Decision) (h5 : d.response ∈ fiveResponses) :
    interp (decisionDoc d) = .ok (.dec d) := by
  have h1 : interp (decisionDoc d) =
      Except.bind (resolveResponse d.response.name)
        (fun response => .ok (.dec ⟨d.source, d.target, d.folder, response⟩)) := rfl
  rw [h1, resolveResponse_name d.response h5]
  rfl

theorem interpFields_decisions : ∀ (l : List (String × Decision)),
    (∀ e ∈ l, e.2.response ∈ fiveResponses) →
    interpFields (jfieldsOfList (l.map (fun e => (e.1, decisionDoc e.2)))) =
      .ok (l.map (fun e => (e.1, HVal.dec e.2)))
  | [], _ => rfl
  | e :: rest, h5 => by
      rw [show jfieldsOfList ((e :: rest).map (fun e => (e.1, decisionDoc e.2))) =
        .cons e.1 (decisionDoc e.2)
          (jfieldsOfList (rest.map (fun e => (e.1, decisionDoc e.2)))) from rfl,
        interpFields_cons,
        interp_decisionDoc e.2 (h5 e (List.mem_cons_self _ _)),
        interpFields_decisions rest (fun q hq => h5 q (List.mem_cons_of_mem _ hq))]
      rfl

theorem interp_matrixDoc (l : List (String × Decision))
    (h5 : ∀ e ∈ l, e.2.response ∈ fiveResponses)
    (hfold : ∀ e ∈ l, e.1 ≠ "folder")
    (hnd : (l.map Prod.fst).Nodup) :
    interp (.obj (jfieldsOfList (l.map (fun e => (e.1, decisionDoc e.2))))) =
      .ok (.dm (l.map (fun e => (e.1, HVal.dec e.2)))) := by
  rw [interp_obj, interpFields_decisions l h5]
  have hnd' : ((l.map (fun e => (e.1, HVal.dec e.2))).map Prod.fst).Nodup := by
    rw [List.map_map]
    exact hnd
  show loadHook (dictOf (l.map (fun e => (e.1, HVal.dec e.2)))) = _
  rw [dictOf_nodup _ hnd']
  unfold loadHook
  rw [show objHasKey (l.map (fun e => (e.1, HVal.dec e.2))) "folder" =
      (lookupKey (l.map (fun e => (e.1, HVal.dec e.2))) "folder").isSome from rfl,
    lookupKey_none _ _ ?_]
  · rfl
  · intro p hp
    obtain ⟨q, hq, hqe⟩ := List.mem_map.mp hp
    rw [← hqe]
    exact hfold q hq

/-- A well-formed decision document loads back to exactly its entries. -/
theorem load_reconstruct (l : List (String × Decision))
    (h5 : ∀ e ∈ l, e.2.response ∈ fiveResponses)
    (hfold : ∀ e ∈ l, e.1 ≠ "folder")
    (hnd : (l.map Prod.fst).Nodup) :
    DecisionMatrix.load (.doc (.obj (jfieldsOfList
      (l.map (fun e => (e.1, decisionDoc e.2)))))) =
      l.map (fun e => (e.1, HVal.dec e.2)) := by
  have h0 : DecisionMatrix.load (.doc (.obj (jfieldsOfList
      (l.map (fun e => (e.1, decisionDoc e.2)))))) =
      (match interp (.obj (jfieldsOfList (l.map (fun e => (e.1, decisionDoc e.2))))) with
        | Except.ok (HVal.dm entries) => entries
        | _ => []) := rfl
  rw [h0, interp_matrixDoc l h5 hfold hnd]

/-- C6 counterexample to the claim as stated: a well-formed matrix
whose (pathological) fingerprint key is the string `"folder"` makes
the top-level object of the saved document look like a serialized
`Decision` to the load hook, whose field accesses then fail — `load`
falls back to the empty matrix and the key is lost. -/
theorem c6_counterexample :
    DecisionMatrix.load (.doc (saveJson
      [("folder", ⟨"a", "b", "/x", RESPONSES.ALLOW_ALWAYS⟩)])) = [] ∧
    lookupKey [("folder", (⟨"a", "b", "/x", RESPONSES.ALLOW_ALWAYS⟩ : Decision))]
      "folder" = some ⟨"a", "b", "/x", RESPONSES.ALLOW_ALWAYS⟩ :=
  ⟨rfl, rfl⟩

/-- C6 (amended): for every matrix with well-formed decisions
(responses among the five), distinct fingerprint keys, and no
fingerprint key equal to the literal string `"folder"`, `save()`
followed by `load()` preserves every fingerprint key and round-trips
every decision's source, target, folder and response exactly. -/
theorem c6_save_load_roundtrip (st : SysState)
    (h5 : ∀ e ∈ st.matrix, e.2.response ∈ fiveResponses)
    (hfold : ∀ e ∈ st.matrix, e.1 ≠ "folder")
    (hnd : (st.matrix.map Prod.fst).Nodup) :
    ∀ k, lookupKey (DecisionMatrix.load (DecisionMatrix.save st).db) k =
      (lookupKey st.matrix k).map HVal.dec := by
  intro k
  have hdb : (DecisionMatrix.save st).db = .doc (saveJson st.matrix) := rfl
  have hperm : (sortByKey st.matrix).Perm st.matrix := List.perm_insertionSort _ _
  have hnd' : ((sortByKey st.matrix).map Prod.fst).Nodup :=
    ((hperm.map Prod.fst).nodup_iff).mpr hnd
  rw [hdb,
    show saveJson st.matrix = .obj (jfieldsOfList ((sortByKey st.matrix).map
      (fun e => (e.1, decisionDoc e.2)))) from rfl,
    load_reconstruct _ (fun e he => h5 e (hperm.subset he))
      (fun e he => hfold e (hperm.subset he)) hnd',
    lookupKey_map, lookupKey_perm hperm hnd' k]

/-- Witness for C6 at a concrete one-entry matrix. -/
theorem c6_witness :
    lookupKey
      (DecisionMatrix.load
        (DecisionMatrix.save
          ⟨[("k1", ⟨"a", "b", "/x", RESPONSES.ALLOW_ALWAYS⟩)], [], .missing⟩).db)
      "k1" =
      (lookupKey [("k1", (⟨"a", "b", "/x", RESPONSES.ALLOW_ALWAYS⟩ : Decision))]
        "k1").map HVal.dec :=
  c6_save_load_roundtrip
    ⟨[("k1", ⟨"a", "b", "/x", RESPONSES.ALLOW_ALWAYS⟩)], [], .missing⟩
    (by decide) (by decide) (by decide) "k1"

theorem except_bind_ok {ε α β : Type} (x : Except ε α) (f : α → Except ε β) (b : β)
    (h : Except.bind x f = .ok b) : ∃ a, x = .ok a ∧ f a = .ok b := by
  cases x with
  | error e => exact absurd h (by simp [Except.bind])
  | ok a => exact ⟨a, rfl, by simpa [Except.bind] using h⟩

/-- What a successful field interpretation yields: the keys are kept
and each stored value is the interpretation of the parsed one. -/
theorem interpFields_ok : ∀ (flds : List (String × JsonVal)) (fs' : List (String × HVal)),
    interpFields (jfieldsOfList flds) = .ok fs' →
    fs'.map Prod.fst = flds.map Prod.fst ∧
    (∀ k v, lookupKey flds k = some v →
      ∃ hv, interp v = .ok hv ∧ lookupKey fs' k = some hv)
  | [], fs', h => by
      rw [show jfieldsOfList ([] : List (String × JsonVal)) = .nil from rfl,
        interpFields_nil] at h
      cases h
      exact ⟨rfl, fun k v hv => Option.noConfusion hv⟩
  | (k₀, v₀) :: rest, fs', h => by
      rw [show jfieldsOfList ((k₀, v₀) :: rest) = .cons k₀ v₀ (jfieldsOfList rest)
        from rfl, interpFields_cons] at h
      obtain ⟨hv₀, hi, h⟩ := except_bind_ok _ _ _ h
      obtain ⟨hs₀, hr, h⟩ := except_bind_ok _ _ _ h
      cases h
      obtain ⟨ihkeys, ihlook⟩ := interpFields_ok rest hs₀ hr
      refine ⟨by rw [List.map_cons, List.map_cons, ihkeys], fun k v hv => ?_⟩
      rw [show lookupKey ((k₀, v₀) :: rest) k =
        (if k₀ = k then some v₀ else lookupKey rest k) from rfl] at hv
      rw [show lookupKey ((k₀, hv₀) :: hs₀) k =
        (if k₀ = k then some hv₀ else lookupKey hs₀ k) from rfl]
      by_cases hk : k₀ = k
      · rw [if_pos hk] at hv ⊢
        cases hv
        exact ⟨hv₀, hi, rfl⟩
      · rw [if_neg hk] at hv ⊢
        exact ihlook k v hv

theorem interpFields_error_of_mem : ∀ (entries : List (String × JsonVal))
    (k : String) (v : JsonVal), (k, v) ∈ entries → (∃ e, interp v = .error e) →
    ∃ e', interpFields (jfieldsOfList entries) = .error e'
  | [], _, _, hm, _ => absurd hm (List.not_mem_nil _)
  | (k₀, v₀) :: rest, k, v, hm, ⟨e, he⟩ => by
      rw [show jfieldsOfList ((k₀, v₀) :: rest) = .cons k₀ v₀ (jfieldsOfList rest)
        from rfl, interpFields_cons]
      cases hi : interp v₀ with
      | error e₀ => exact ⟨e₀, rfl⟩
      | ok hv₀ =>
          rcases List.mem_cons.mp hm with heq | hm'
          · have hveq : v = v₀ := congrArg Prod.snd heq
            rw [hveq, hi] at he
            exact Except.noConfusion he
          · obtain ⟨e', he'⟩ := interpFields_error_of_mem rest k v hm' ⟨e, he⟩
            exact ⟨e', by rw [he']; rfl⟩

/-- The load hook fails on a decision-shaped object whose response
name does not resolve. -/
theorem loadHook_error (fs' : List (String × HVal)) (rn eb : String)
    (hf : (lookupKey fs' "folder").isSome = true)
    (hr : lookupKey fs' "response" = some (.js rn))
    (hbad : resolveResponse rn = .error eb) :
    ∃ e, loadHook fs' = .error e := by
  unfold loadHook
  rw [show objHasKey fs' "folder" = (lookupKey fs' "folder").isSome from rfl, hf]
  simp only [reduceIte]
  cases hs : getStrField fs' "source" with
  | error e => exact ⟨e, rfl⟩
  | ok s₀ =>
      cases ht : getStrField fs' "target" with
      | error e => exact ⟨e, rfl⟩
      | ok t₀ =>
          cases hfo : getStrField fs' "folder" with
          | error e => exact ⟨e, rfl⟩
          | ok f₀ =>
              have hresp : getStrField fs' "response" = .ok rn := by
                unfold getStrField
                rw [show objGet fs' "response" = lookupKey fs' "response" from rfl,
                  hr]
              refine ⟨eb, ?_⟩
              rw [hresp]
              show Except.bind (resolveResponse rn)
                (fun response =>
                  Except.ok (HVal.dec ⟨s₀, t₀, f₀, response⟩)) = Except.error eb
              rw [hbad]
              rfl

/-- C7: `load` never propagates a failure: a missing or unparseable
document yields the empty matrix; a document holding a decision-shaped
object whose stored response name does not resolve in the closed
enumeration yields the empty matrix; and a well-formed document is
reconstructed entry by entry with each `Response` resolved by exact
name lookup. -/
theorem c7_load_total :
    DecisionMatrix.load .missing = [] ∧
    DecisionMatrix.load .malformed = [] ∧
    (∀ (entries flds : List (String × JsonVal)) (k rn : String),
      (k, .obj (jfieldsOfList flds)) ∈ entries →
      ((flds.map Prod.fst).Nodup) →
      (lookupKey flds "folder").isSome = true →
      lookupKey flds "response" = some (.str rn) →
      rn ∉ ["ALLOW_ONETIME", "DENY_ONETIME", "ALLOW_ALWAYS",
        "DENY_ALWAYS", "BLOCK"] →
      DecisionMatrix.load (.doc (.obj (jfieldsOfList entries))) = []) ∧
    (∀ (l : List (String × Decision)),
      (∀ e ∈ l, e.2.response ∈ fiveResponses) →
      (∀ e ∈ l, e.1 ≠ "folder") →
      ((l.map Prod.fst).Nodup) →
      DecisionMatrix.load (.doc (.obj (jfieldsOfList
        (l.map (fun e => (e.1, decisionDoc e.2)))))) =
        l.map (fun e => (e.1, HVal.dec e.2))) := by
  refine ⟨rfl, rfl, ?_, load_reconstruct⟩
  intro entries flds k rn hmem hnodup hfolder hresp hbad
  have hobjerr : ∃ e, interp (.obj (jfieldsOfList flds)) = .error e := by
    cases hfi : interpFields (jfieldsOfList flds) with
    | error e => exact ⟨e, by rw [interp_obj, hfi]; rfl⟩
    | ok fs' =>
        obtain ⟨hkeys, hlook⟩ := interpFields_ok flds fs' hfi
        have hnd' : (fs'.map Prod.fst).Nodup := by rw [hkeys]; exact hnodup
        obtain ⟨vf, hvf⟩ := Option.isSome_iff_exists.mp hfolder
        obtain ⟨hvf', _, hfs'⟩ := hlook "folder" vf hvf
        obtain ⟨hvr, hir, hrs'⟩ := hlook "response" (.str rn) hresp
        rw [interp_str] at hir
        cases hir
        obtain ⟨eb, hrb⟩ := resolveResponse_error rn hbad
        obtain ⟨e, he⟩ := loadHook_error fs' rn eb (by rw [hfs']; rfl) hrs' hrb
        refine ⟨e, ?_⟩
        rw [interp_obj, hfi, show Except.bind (Except.ok fs')
          (fun fs => loadHook (dictOf fs)) = loadHook (dictOf fs') from rfl,
          dictOf_nodup fs' hnd', he]
  obtain ⟨e', he'⟩ := interpFields_error_of_mem entries k _ hmem hobjerr
  have hload : DecisionMatrix.load (.doc (.obj (jfieldsOfList entries))) =
      (match interp (.obj (jfieldsOfList entries)) with
        | Except.ok (HVal.dm es) => es
        | _ => []) := rfl
  rw [hload, interp_obj, he']
  rfl

/-- Witness for C7: a document whose single entry stores the unknown
response name `"MAYBE"` loads as the empty matrix. -/
theorem c7_witness :
    DecisionMatrix.load (.doc (.obj (jfieldsOfList
      [("k1", .obj (jfieldsOfList
        [("folder", .str "/x"), ("response", .str "MAYBE"),
         ("source", .str "a"), ("target", .str "b")]))]))) = [] :=
  c7_load_total.2.2.1
    [("k1", .obj (jfieldsOfList
      [("folder", .str "/x"), ("response", .str "MAYBE"),
       ("source", .str "a"), ("target", .str "b")]))]
    [("folder", .str "/x"), ("response", .str "MAYBE"),
     ("source", .str "a"), ("target", .str "b")]
    "k1" "MAYBE" (List.mem_singleton.mpr rfl) (by decide) rfl rfl (by decide)
